import Mathlib

/-!
# appie-cli: authorization-code extraction and the login flow

A shallow embedding of `src/appie-cli/main.go`.

Go strings are byte sequences, so a Go string is modelled as a list of byte values.
The Go standard-library functions that `main.go` calls (`strings.TrimSpace`,
`strings.Contains`, `strings.SplitN`, `strings.Index`, `strings.ReplaceAll`,
`url.Parse`, `URL.Query`, `Values.Get`) are embedded from the Go 1.22 sources
(`strings`, `unicode/utf8`, `unicode`, `net/url`).
-/

namespace AppieCli

/-! ## Go strings -/

/-- A Go string: a sequence of bytes (every entry is a byte value, 0..255). -/
abbrev GoString := List Nat

/-- UTF-8 encoding of one code point (`utf8.AppendRune`), used for string literals. -/
def utf8Encode (r : Nat) : GoString :=
  if r < 0x80 then [r]
  else if r < 0x800 then [0xC0 + r / 64, 0x80 + r % 64]
  else if r < 0x10000 then [0xE0 + r / 4096, 0x80 + r / 64 % 64, 0x80 + r % 64]
  else [0xF0 + r / 262144, 0x80 + r / 4096 % 64, 0x80 + r / 64 % 64, 0x80 + r % 64]

/-- The bytes of a string literal. -/
def lit (s : String) : GoString :=
  s.toList.flatMap fun c => utf8Encode c.toNat

/-! ## unicode/utf8 and unicode.IsSpace -/

/-- The rune `utf8.RuneError` (U+FFFD). -/
def RuneError : Nat := 0xFFFD

/-- Continuation-byte test: `locb <= b && b <= hicb`. -/
def isCont (b : Nat) : Bool := 0x80 ≤ b && b ≤ 0xBF

/-- `utf8.DecodeRuneInString`: the first rune of `s` and its width in bytes.
Invalid or short encodings give `(RuneError, 1)`, the empty string `(RuneError, 0)`.
The `first`/`acceptRanges` tables are written out as ranges of the lead byte. -/
def decodeRune (s : GoString) : Nat × Nat :=
  match s with
  | [] => (RuneError, 0)
  | s0 :: t =>
    if s0 < 0x80 then (s0, 1)
    else if s0 < 0xC2 then (RuneError, 1)
    else if s0 < 0xE0 then
      -- size 2, second byte in 0x80..0xBF
      match t with
      | s1 :: _ =>
        if isCont s1 then ((s0 % 32) * 64 + s1 % 64, 2) else (RuneError, 1)
      | _ => (RuneError, 1)
    else if s0 < 0xF0 then
      -- size 3, second byte restricted for 0xE0 (0xA0..0xBF) and 0xED (0x80..0x9F)
      match t with
      | s1 :: s2 :: _ =>
        let lo := if s0 = 0xE0 then 0xA0 else 0x80
        let hi := if s0 = 0xED then 0x9F else 0xBF
        if s1 < lo || hi < s1 then (RuneError, 1)
        else if !isCont s2 then (RuneError, 1)
        else ((s0 % 16) * 4096 + (s1 % 64) * 64 + s2 % 64, 3)
      | _ => (RuneError, 1)
    else if s0 < 0xF5 then
      -- size 4, second byte restricted for 0xF0 (0x90..0xBF) and 0xF4 (0x80..0x8F)
      match t with
      | s1 :: s2 :: s3 :: _ =>
        let lo := if s0 = 0xF0 then 0x90 else 0x80
        let hi := if s0 = 0xF4 then 0x8F else 0xBF
        if s1 < lo || hi < s1 then (RuneError, 1)
        else if !isCont s2 then (RuneError, 1)
        else if !isCont s3 then (RuneError, 1)
        else ((s0 % 8) * 262144 + (s1 % 64) * 4096 + (s2 % 64) * 64 + s3 % 64, 4)
      | _ => (RuneError, 1)
    else (RuneError, 1)

/-- `utf8.RuneStart`: the byte is not a continuation byte (`b&0xC0 != 0x80`). -/
def RuneStart (b : Nat) : Bool := b / 64 % 4 != 2

/-- The backwards scan of `utf8.DecodeLastRuneInString`:
`for start--; start >= lim; start-- { if RuneStart(s[start]) { break } }`.
The argument and the result are `start + 1`, so that `start = -1` is `0`. -/
def scanRuneStart (s : GoString) (lim : Nat) : Nat → Nat
  | 0 => 0
  | i + 1 =>
    if lim ≤ i then
      if RuneStart (s.getD i 0) then i + 1 else scanRuneStart s lim i
    else i + 1

/-- `utf8.DecodeLastRuneInString`: the last rune of `s` and its width. -/
def decodeLastRune (s : GoString) : Nat × Nat :=
  let e := s.length
  if e = 0 then (RuneError, 0)
  else
    let r := s.getD (e - 1) 0
    if r < 0x80 then (r, 1)
    else
      let lim := e - 4
      let start := scanRuneStart s lim (e - 1) - 1
      let rs := decodeRune (s.drop start)
      if start + rs.2 ≠ e then (RuneError, 1) else rs

/-- `unicode.IsSpace`: the Latin-1 spaces `\t \n \v \f \r`, space, U+0085, U+00A0,
and the other code points with the `White_Space` property. -/
def isSpace (r : Nat) : Bool :=
  (9 ≤ r && r ≤ 13) || r = 0x20 || r = 0x85 || r = 0xA0 || r = 0x1680 ||
  (0x2000 ≤ r && r ≤ 0x200A) || r = 0x2028 || r = 0x2029 || r = 0x202F ||
  r = 0x205F || r = 0x3000

/-! ## strings -/

/-- `strings.TrimLeftFunc(s, unicode.IsSpace)`: drop leading runes while they are
white space.  The fuel bounds the number of runes dropped. -/
def trimLeftLoop : Nat → GoString → GoString
  | 0, s => s
  | fuel + 1, s =>
    if s = [] then []
    else
      let rs := decodeRune s
      if isSpace rs.1 then trimLeftLoop fuel (s.drop rs.2) else s

/-- `strings.TrimRightFunc(s, unicode.IsSpace)`: drop trailing runes (decoded from
the end) while they are white space. -/
def trimRightLoop : Nat → GoString → GoString
  | 0, s => s
  | fuel + 1, s =>
    if s = [] then []
    else
      let rs := decodeLastRune s
      if isSpace rs.1 then trimRightLoop fuel (s.take (s.length - rs.2)) else s

/-- `strings.TrimSpace`: all leading and trailing white space removed, as defined
by Unicode.  (Go's ASCII fast path followed by `TrimFunc` computes the same slice.) -/
def TrimSpace (s : GoString) : GoString :=
  let l := trimLeftLoop s.length s
  trimRightLoop l.length l

/-- The string is empty or its first rune is not white space. -/
def leftClean (s : GoString) : Prop := s = [] ∨ isSpace (decodeRune s).1 = false

/-- The string is empty or its last rune is not white space. -/
def rightClean (s : GoString) : Prop := s = [] ∨ isSpace (decodeLastRune s).1 = false

/-- The string consists of white-space runes only: trimming it on the left leaves
nothing. -/
def allSpace (s : GoString) : Prop := trimLeftLoop s.length s = []

/-- `strings.HasPrefix`. -/
def HasPrefix (s p : GoString) : Bool := p.isPrefixOf s

/-- `strings.Index(s, sep)`: the byte offset of the first occurrence of `sep`
(`none` for Go's `-1`). -/
def Index (s sep : GoString) : Option Nat :=
  match s with
  | [] => if sep = [] then some 0 else none
  | c :: cs =>
    if HasPrefix (c :: cs) sep then some 0
    else (Index cs sep).map (· + 1)

/-- `strings.LastIndex(s, sep)`. -/
def LastIndex (s sep : GoString) : Option Nat :=
  match s with
  | [] => if sep = [] then some 0 else none
  | c :: cs =>
    match LastIndex cs sep with
    | some i => some (i + 1)
    | none => if HasPrefix (c :: cs) sep then some 0 else none

/-- `strings.Contains`. -/
def Contains (s sep : GoString) : Bool := (Index s sep).isSome

/-- `strings.Cut`: the text before and after the first `sep`; the whole string and
the empty string when `sep` does not occur. -/
def Cut (s sep : GoString) : GoString × GoString :=
  match Index s sep with
  | some i => (s.take i, s.drop (i + sep.length))
  | none => (s, [])

/-- `strings.SplitN(s, sep, 2)` for a non-empty `sep`: two parts around the first
`sep`, or the single part `s`. -/
def SplitN2 (s sep : GoString) : List GoString :=
  match Index s sep with
  | some i => [s.take i, s.drop (i + sep.length)]
  | none => [s]

/-- `strings.Count(s, sep)` for a one-byte `sep`. -/
def CountByte (s : GoString) (b : Nat) : Nat := s.count b

/-- `strings.HasSuffix`. -/
def HasSuffix (s p : GoString) : Bool := p.reverse.isPrefixOf s.reverse

/-- `strings.ToLower` on ASCII letters. -/
def toLowerByte (b : Nat) : Nat := if 0x41 ≤ b ∧ b ≤ 0x5A then b + 32 else b

/-- `strings.ReplaceAll(s, "\n", " ")`. -/
def replaceNewlines (s : GoString) : GoString :=
  s.map fun b => if b = 0x0A then 0x20 else b

/-! ## net/url -/

/-- `ishex`. -/
def ishex (c : Nat) : Bool :=
  (0x30 ≤ c && c ≤ 0x39) || (0x61 ≤ c && c ≤ 0x66) || (0x41 ≤ c && c ≤ 0x46)

/-- `unhex`. -/
def unhex (c : Nat) : Nat :=
  if 0x30 ≤ c ∧ c ≤ 0x39 then c - 0x30
  else if 0x61 ≤ c ∧ c ≤ 0x66 then c - 0x61 + 10
  else if 0x41 ≤ c ∧ c ≤ 0x46 then c - 0x41 + 10
  else 0

/-- The escaping modes of `net/url` that `Parse` and `QueryUnescape` use. -/
inductive Encoding where
  | encodePath
  | encodeHost
  | encodeZone
  | encodeUserPassword
  | encodeQueryComponent
  | encodeFragment
  deriving DecidableEq, Repr

/-- ASCII letter or digit. -/
def isAlnum (c : Nat) : Bool :=
  (0x61 ≤ c && c ≤ 0x7A) || (0x41 ≤ c && c ≤ 0x5A) || (0x30 ≤ c && c ≤ 0x39)

/-- `shouldEscape(c, encodeHost)`: letters and digits, the sub-delims
`! $ & ' ( ) * + , ; =`, then `: [ ] < > "` and `- _ . ~` may stand unescaped in a
host; every other byte must be escaped. -/
def shouldEscapeHost (c : Nat) : Bool :=
  !(isAlnum c || c ∈ [0x21, 0x24, 0x26, 0x27, 0x28, 0x29, 0x2A, 0x2B, 0x2C, 0x3B, 0x3D,
      0x3A, 0x5B, 0x5D, 0x3C, 0x3E, 0x22, 0x2D, 0x5F, 0x2E, 0x7E])

/-- First pass of `unescape`: every `%` is followed by two hex digits, and the
host and zone modes accept only their own bytes and escapes. -/
def unescapeCheck (mode : Encoding) : GoString → Bool
  | [] => true
  | c :: rest =>
    if c = 0x25 then
      match rest with
      | h1 :: h2 :: rest2 =>
        if !ishex h1 || !ishex h2 then false
        else if mode = .encodeHost && unhex h1 < 8 && !(h1 = 0x32 && h2 = 0x35) then false
        else if mode = .encodeZone && !(h1 = 0x32 && h2 = 0x35)
            && unhex h1 * 16 + unhex h2 ≠ 0x20
            && shouldEscapeHost (unhex h1 * 16 + unhex h2) then false
        else unescapeCheck mode rest2
      | _ => false
    else if (mode = .encodeHost || mode = .encodeZone) && c < 0x80 && shouldEscapeHost c then
      false
    else unescapeCheck mode rest

/-- Second pass of `unescape`: `%XX` becomes the byte `XX`, and `+` becomes a space
in query-component mode. -/
def unescapeDecode (mode : Encoding) : GoString → GoString
  | [] => []
  | c :: rest =>
    if c = 0x25 then
      match rest with
      | h1 :: h2 :: rest2 => (unhex h1 * 16 + unhex h2) :: unescapeDecode mode rest2
      | _ => []
    else if c = 0x2B then
      (if mode = .encodeQueryComponent then 0x20 else 0x2B) :: unescapeDecode mode rest
    else c :: unescapeDecode mode rest

/-- `unescape(s, mode)`; `none` is Go's non-nil error. -/
def unescape (s : GoString) (mode : Encoding) : Option GoString :=
  if unescapeCheck mode s then some (unescapeDecode mode s) else none

/-- `url.QueryUnescape`. -/
def QueryUnescape (s : GoString) : Option GoString :=
  unescape s .encodeQueryComponent

/-- `stringContainsCTLByte`: some byte is `< ' '` or is `0x7f`. -/
def stringContainsCTLByte (s : GoString) : Bool :=
  s.any fun b => b < 0x20 || b = 0x7F

/-- The loop of `getScheme` at byte offset `i`, with `rest = rawURL[i:]`. -/
def getSchemeLoop (rawURL : GoString) : Nat → GoString → Option (GoString × GoString)
  | _, [] => some ([], rawURL)
  | i, c :: rest =>
    if (0x61 ≤ c && c ≤ 0x7A) || (0x41 ≤ c && c ≤ 0x5A) then getSchemeLoop rawURL (i + 1) rest
    else if (0x30 ≤ c && c ≤ 0x39) || c = 0x2B || c = 0x2D || c = 0x2E then
      if i = 0 then some ([], rawURL) else getSchemeLoop rawURL (i + 1) rest
    else if c = 0x3A then
      if i = 0 then none else some (rawURL.take i, rawURL.drop (i + 1))
    else some ([], rawURL)

/-- `getScheme`: the scheme and what follows its colon; `none` is the error
"missing protocol scheme". -/
def getScheme (rawURL : GoString) : Option (GoString × GoString) :=
  getSchemeLoop rawURL 0 rawURL

/-- `validOptionalPort`: empty, or a colon followed by digits only. -/
def validOptionalPort (port : GoString) : Bool :=
  match port with
  | [] => true
  | c :: ds => c = 0x3A && ds.all fun b => 0x30 ≤ b && b ≤ 0x39

/-- `validUserinfo`: only letters, digits and `- . _ : ~ ! $ & ' ( ) * + , ; = % @`. -/
def validUserinfo (s : GoString) : Bool :=
  s.all fun r => isAlnum r || r ∈ [0x2D, 0x2E, 0x5F, 0x3A, 0x7E, 0x21, 0x24, 0x26, 0x27,
    0x28, 0x29, 0x2A, 0x2B, 0x2C, 0x3B, 0x3D, 0x25, 0x40]

/-- `parseHost`: the host (with its port) of an authority, unescaped. This is the
function of Go 1.22. For a host that starts with `[` it only looks for the closing
`]`, the port and the zone; Go releases from 1.24.8 and 1.25.2 on also require
the text between the brackets to be an IPv6 address and fail otherwise. The
two agree on every host without a bracket. -/
def parseHost (host : GoString) : Option GoString :=
  if HasPrefix host [0x5B] then
    -- an IP literal "[...]" with an optional port and an optional zone
    match LastIndex host [0x5D] with
    | none => none
    | some i =>
      if !validOptionalPort (host.drop (i + 1)) then none
      else
        match Index (host.take i) [0x25, 0x32, 0x35] with
        | some zone =>
          match unescape (host.take zone) .encodeHost with
          | none => none
          | some host1 =>
            match unescape ((host.take i).drop zone) .encodeZone with
            | none => none
            | some host2 =>
              match unescape (host.drop i) .encodeHost with
              | none => none
              | some host3 => some (host1 ++ host2 ++ host3)
        | none => unescape host .encodeHost
  else
    match LastIndex host [0x3A] with
    | some i =>
      if !validOptionalPort (host.drop i) then none else unescape host .encodeHost
    | none => unescape host .encodeHost

/-- `url.Userinfo`: a username and an optional password. -/
structure Userinfo where
  username : GoString
  password : Option GoString
  deriving DecidableEq, Repr

/-- `parseAuthority`: the user information and the host of `[userinfo@]host`. -/
def parseAuthority (authority : GoString) : Option (Option Userinfo × GoString) :=
  match LastIndex authority [0x40] with
  | none => (parseHost authority).map fun host => (none, host)
  | some i =>
    match parseHost (authority.drop (i + 1)) with
    | none => none
    | some host =>
      let userinfo := authority.take i
      if !validUserinfo userinfo then none
      else if !Contains userinfo [0x3A] then
        (unescape userinfo .encodeUserPassword).map fun u => (some ⟨u, none⟩, host)
      else
        let up := Cut userinfo [0x3A]
        match unescape up.1 .encodeUserPassword with
        | none => none
        | some username =>
          (unescape up.2 .encodeUserPassword).map fun password =>
            (some ⟨username, some password⟩, host)

/-- `url.URL`, without the `RawPath` and `RawFragment` encoding hints. -/
structure URL where
  Scheme : GoString := []
  Opaque : GoString := []
  User : Option Userinfo := none
  Host : GoString := []
  Path : GoString := []
  OmitHost : Bool := false
  ForceQuery : Bool := false
  RawQuery : GoString := []
  Fragment : GoString := []
  deriving DecidableEq, Repr

/-- `(*URL).setPath`: the path is stored unescaped. -/
def URL.setPath (u : URL) (p : GoString) : Option URL :=
  (unescape p .encodePath).map fun path => { u with Path := path }

/-- `(*URL).setFragment`. -/
def URL.setFragment (u : URL) (f : GoString) : Option URL :=
  (unescape f .encodeFragment).map fun frag => { u with Fragment := frag }

/-- `parse(rawURL, viaRequest = false)`: a URL without its fragment. -/
def parse (rawURL : GoString) : Option URL :=
  if stringContainsCTLByte rawURL then none
  else if rawURL = [0x2A] then some { Path := [0x2A] }
  else
    match getScheme rawURL with
    | none => none
    | some (scheme, rest0) =>
      let scheme := scheme.map toLowerByte
      let forceQuery := HasSuffix rest0 [0x3F] && CountByte rest0 0x3F = 1
      let rest := if forceQuery then rest0.take (rest0.length - 1) else (Cut rest0 [0x3F]).1
      let rawQuery := if forceQuery then [] else (Cut rest0 [0x3F]).2
      let u : URL := { Scheme := scheme, ForceQuery := forceQuery, RawQuery := rawQuery }
      if !HasPrefix rest [0x2F] && scheme ≠ [] then
        -- a rootless path after a scheme is opaque
        some { u with Opaque := rest }
      else if !HasPrefix rest [0x2F] && Contains (Cut rest [0x2F]).1 [0x3A] then
        -- first path segment in URL cannot contain colon
        none
      else if (scheme ≠ [] || !HasPrefix rest [0x2F, 0x2F, 0x2F]) && HasPrefix rest [0x2F, 0x2F] then
        let authority0 := rest.drop 2
        let authority :=
          match Index authority0 [0x2F] with
          | some i => authority0.take i
          | none => authority0
        let rest1 :=
          match Index authority0 [0x2F] with
          | some i => authority0.drop i
          | none => []
        match parseAuthority authority with
        | none => none
        | some (user, host) => URL.setPath { u with User := user, Host := host } rest1
      else if scheme ≠ [] && HasPrefix rest [0x2F] then
        URL.setPath { u with OmitHost := true } rest
      else URL.setPath u rest

/-- `url.Parse`: cut off the fragment, parse the rest, then set the fragment. -/
def Parse (rawURL : GoString) : Option URL :=
  let p := Cut rawURL [0x23]
  match parse p.1 with
  | none => none
  | some url => if p.2 = [] then some url else URL.setFragment url p.2

/-- `url.Values`: the values of every key in the order they were appended. The
map is kept as the list of its (key, value) entries in insertion order. -/
abbrev Values := List (GoString × GoString)

/-- The loop of `parseQuery`: cut the query at each `&`, skip a pair with a
semicolon, an empty pair, or a pair that fails to unescape, and append the others. -/
def parseQueryLoop : Nat → GoString → Values
  | 0, _ => []
  | fuel + 1, query =>
    if query = [] then []
    else
      let kq := Cut query [0x26]
      if Contains kq.1 [0x3B] then parseQueryLoop fuel kq.2
      else if kq.1 = [] then parseQueryLoop fuel kq.2
      else
        let kv := Cut kq.1 [0x3D]
        match QueryUnescape kv.1 with
        | none => parseQueryLoop fuel kq.2
        | some key =>
          match QueryUnescape kv.2 with
          | none => parseQueryLoop fuel kq.2
          | some value => (key, value) :: parseQueryLoop fuel kq.2

/-- `(*URL).Query`: `ParseQuery(u.RawQuery)` with its error dropped. Every turn of
the loop removes at least one byte, so the length of the query is enough fuel. -/
def URL.Query (u : URL) : Values :=
  parseQueryLoop u.RawQuery.length u.RawQuery

/-- `Values.Get`: the first value of the key, or the empty string. -/
def Values.Get (v : Values) (key : GoString) : GoString :=
  match v.find? fun p => p.1 = key with
  | some p => p.2
  | none => []

/-! ## main.go: extractCode -/

/-- The manual fallback of `extractCode` (main.go lines 527-537): the text after
the first `code=`, cut at the next `&`. -/
def extractCodeFallback (input : GoString) : GoString :=
  match SplitN2 input (lit "code=") with
  | [_, code] =>
    match Index code (lit "&") with
    | some idx => code.take idx
    | none => code
  | _ => input

/-- `extractCode` (main.go lines 518-538): the authorization code of a bare code
or of a full `appie://` URL. -/
def extractCode (input : GoString) : GoString :=
  let input := TrimSpace input
  if Contains input (lit "code=") then
    match Parse input with
    | some u =>
      let c := (URL.Query u).Get (lit "code")
      if c ≠ [] then c else extractCodeFallback input
    | none => extractCodeFallback input
  else input

/-! ## main.go: process output, fatal -/

/-- What the process does that can be seen from outside, and its calls into the
`appie` client and the HTTP server. -/
inductive Event where
  | stdout (text : GoString)
  | stderr (text : GoString)
  | exit (status : Nat)
  | shutdown
  | exchangeCode (code : GoString)
  | saveConfig
  | getAnonymousToken
  deriving DecidableEq, Repr

/-- A run of sequential code: the events it produced, and its value, or `none`
when the process has exited (`os.Exit`) before the code returned. -/
structure Run (α : Type) where
  trace : List Event
  result : Option α

/-- Sequencing: the second part runs only if the first returned. -/
def Run.bind {α β : Type} (m : Run α) (f : α → Run β) : Run β :=
  match m.result with
  | none => ⟨m.trace, none⟩
  | some a => ⟨m.trace ++ (f a).trace, (f a).result⟩

instance : Monad Run where
  pure a := ⟨[], some a⟩
  bind := Run.bind

/-- One event, then go on. -/
def emit (e : Event) : Run Unit := ⟨[e], some ()⟩

/-- `os.Exit(status)`: nothing after it runs. -/
def osExit {α : Type} (status : Nat) : Run α := ⟨[.exit status], none⟩

/-- The text `fatal` writes to standard error (main.go lines 728-731) when
`fmt.Sprintf(format, args...)` is `msg`: newlines become spaces, and the
message is put between `{"error": "` and `"}` followed by a newline. -/
def fatalText (msg : GoString) : GoString :=
  lit "\x7b\"error\": \"" ++ replaceNewlines msg ++ lit "\"\x7d\n"

/-- `fatal` (main.go lines 727-733), given the formatted message. -/
def fatal {α : Type} (msg : GoString) : Run α := do
  emit (.stderr (fatalText msg))
  osExit 1

/-- `fmt.Sprintf(format + "%v", err)` for an error whose `Error()` text is `err`
and a `format` without verbs. -/
def sprintfV (format err : GoString) : GoString := format ++ err

/-- The line `{"ok": true, "message": "Login successful"}` of `fmt.Println`. -/
def successObject : GoString :=
  lit "\x7b\"ok\": true, \"message\": \"Login successful\"\x7d\n"

/-! ## The appie client -/

/-- The operations of `appie.Client` (package `github.com/gwillem/appie-go`, an
external library) that the login and client-selection code calls, over a client
state `σ`. A Go `error` is kept as its message. -/
structure Api (σ : Type) where
  /-- `appie.New(appie.WithConfigPath(configPath))` -/
  New : σ
  /-- `appie.New()` -/
  NewDefault : σ
  /-- `appie.NewWithConfig(configPath)` -/
  NewWithConfig : Except GoString σ
  /-- `client.LoadConfig()` -/
  LoadConfig : σ → Except GoString σ
  /-- `client.IsAuthenticated()` -/
  IsAuthenticated : σ → Bool
  /-- `client.ExchangeCode(ctx, code)` -/
  ExchangeCode : σ → GoString → Except GoString σ
  /-- `client.SaveConfig()` -/
  SaveConfig : σ → Except GoString Unit
  /-- `client.GetAnonymousToken(ctx)` -/
  GetAnonymousToken : σ → Except GoString σ

/-! ## main.go: exchange-code, and the arms of the login select -/

/-- The statements shared by the login arm (main.go lines 79-85) and the
exchange-code command (lines 103-109): exchange the code, save the
configuration, print the success object. -/
def exchangeAndSave {σ : Type} (api : Api σ) (client : σ) (code : GoString) : Run Unit := do
  emit (.exchangeCode code)
  match api.ExchangeCode client code with
  | .error err => fatal (sprintfV (lit "Exchange failed: ") err)
  | .ok client1 =>
    emit .saveConfig
    match api.SaveConfig client1 with
    | .error err => fatal (sprintfV (lit "Save config failed: ") err)
    | .ok _ => emit (.stdout successObject)

/-- `case "exchange-code"` of `main` (main.go lines 95-109), on `os.Args`. -/
def exchangeCodeCmd {σ : Type} (api : Api σ) (args : List GoString) : Run Unit :=
  if args.length < 3 then do
    emit (.stderr (lit "Usage: appie-cli exchange-code <code>\n"))
    emit (.stderr (lit "       appie-cli exchange-code \"appie://login-exit?code=XXXXX\"\n"))
    osExit 1
  else
    let client := api.New
    let code := extractCode (args.getD 2 [])
    exchangeAndSave api client code

/-- What follows `srv.Shutdown(ctx)` in the two arms of the login `select`
(main.go lines 79-85 and 88); `sel` is the code received from `codeCh`, or `none`
when the five-minute timer fired. -/
def afterShutdown {σ : Type} (api : Api σ) (client : σ) : Option GoString → Run Unit
  | some code => exchangeAndSave api client code
  | none => fatal (lit "Login timed out after 5 minutes")

/-! ## main.go: mustAuth -/

/-- `mustAuth` (main.go lines 396-409). -/
def mustAuth {σ : Type} (api : Api σ) : Run σ := do
  let client ←
    match api.NewWithConfig with
    | .ok client => (pure client : Run σ)
    | .error _ =>
      -- Try loading and refreshing
      match api.LoadConfig api.New with
      | .error _ => fatal (lit "Not authenticated. Run: appie-cli login-url")
      | .ok client => pure client
  if !api.IsAuthenticated client then
    fatal (lit "Not authenticated. Run: appie-cli login-url")
  else
    pure client

/-! ## main.go: mustAnon -/

/-- `mustAnon` (main.go lines 411-422): the client of the persisted credentials
when they load and are authenticated, else a fresh client with an anonymous
token. -/
def mustAnon {σ : Type} (api : Api σ) : Run σ :=
  -- Try authenticated first, fall back to anonymous
  let authed : Option σ :=
    match api.NewWithConfig with
    | .ok client => if api.IsAuthenticated client then some client else none
    | .error _ => none
  match authed with
  | some client => pure client
  | none => do
    emit .getAnonymousToken
    match api.GetAnonymousToken api.NewDefault with
    | .error err => fatal (sprintfV (lit "Get anonymous token failed: ") err)
    | .ok client => pure client

/-! ## main.go: the login session

The `/callback` handler goroutines and `main` share only the channel `codeCh`
(capacity one).  The session is a state machine whose steps are the steps of
these goroutines; a schedule is the list of steps taken, in order. The session
starts when `main` reaches its `select` (line 76). -/

/-- An HTTP response as the handler writes it. -/
structure Response where
  status : Nat
  contentType : GoString
  body : GoString
  deriving DecidableEq, Repr

/-- The constant `successPage` (main.go lines 594-611). -/
def successPage : GoString :=
  lit ("<!DOCTYPE html>\n<html lang=\"nl\">\n<head>\n<meta charset=\"utf-8\">\n" ++
    "<title>Ingelogd!</title>\n<style>\n" ++
    "  body \x7b font-family: -apple-system, system-ui, sans-serif; max-width: 600px; " ++
    "margin: 60px auto; padding: 0 20px; background: #f5f5f5; \x7d\n" ++
    "  .card \x7b background: white; border-radius: 12px; padding: 32px; " ++
    "box-shadow: 0 2px 8px rgba(0,0,0,0.1); text-align: center; \x7d\n" ++
    "  h1 \x7b color: #00811c; \x7d\n</style>\n</head>\n<body>\n<div class=\"card\">\n" ++
    "  <h1>Ingelogd!</h1>\n" ++
    "  <p>Je bent succesvol ingelogd bij Albert Heijn. Je kunt dit venster sluiten.</p>\n" ++
    "</div>\n</body>\n</html>")

/-- `http.Error(w, "Missing code", 400)`. -/
def missingCodeResponse : Response :=
  ⟨400, lit "text/plain; charset=utf-8", lit "Missing code\n"⟩

/-- The success page with its content type, status 200 (main.go lines 60-61). -/
def successResponse : Response :=
  ⟨200, lit "text/html; charset=utf-8", successPage⟩

/-- `r.URL.Query().Get("code")` for a request with the given raw query. -/
def callbackCode (rawQuery : GoString) : GoString :=
  (URL.Query { RawQuery := rawQuery }).Get (lit "code")

/-- Where a `/callback` handler stands: not yet run, about to send on `codeCh`
(after writing the success page), or returned. -/
inductive HandlerPc where
  | started
  | sending (code : GoString)
  | done
  deriving DecidableEq, Repr

/-- One `/callback` request and its handler goroutine (main.go lines 54-63). -/
structure Handler where
  rawQuery : GoString
  pc : HandlerPc
  response : Option Response
  /-- the codes this handler has put on `codeCh` -/
  sent : List GoString
  deriving DecidableEq, Repr

/-- One step of a handler against the channel buffer. From `started`: read the
code, answer 400 and return if it is empty, else write the success page. From
`sending`: put the code on the channel if its one slot is free, else stay blocked. -/
def handlerStep (codeCh : Option GoString) (h : Handler) : Option GoString × Handler :=
  match h.pc with
  | .started =>
    let code := callbackCode h.rawQuery
    if code = [] then
      (codeCh, { h with pc := .done, response := some missingCodeResponse })
    else
      (codeCh, { h with pc := .sending code, response := some successResponse })
  | .sending code =>
    match codeCh with
    | none => (some code, { h with pc := .done, sent := h.sent ++ [code] })
    | some _ => (codeCh, h)
  | .done => (codeCh, h)

/-- Where `main` stands in the login flow: blocked in the `select`, a case chosen,
inside `srv.Shutdown`, or past it (the rest of the arm has run). -/
inductive MainPc where
  | waiting
  | selected (sel : Option GoString)
  | inShutdown (sel : Option GoString)
  | finished (sel : Option GoString)
  deriving DecidableEq, Repr

/-- The state of a login session. -/
structure Session where
  /-- the buffer of `codeCh := make(chan string, 1)` -/
  codeCh : Option GoString
  handlers : List Handler
  main : MainPc
  /-- the listener is open -/
  serving : Bool
  /-- the codes `main` has received from `codeCh` -/
  received : List GoString
  /-- the events of `main` since the `select` -/
  trace : List Event
  deriving DecidableEq, Repr

/-- The steps of a login session. -/
inductive Action where
  /-- a request `GET /callback?rawQuery` reaches the server -/
  | request (rawQuery : GoString)
  /-- the handler of the `i`-th request takes a step -/
  | handler (i : Nat)
  /-- the `select` takes `case code := <-codeCh` -/
  | receive
  /-- the `select` takes `case <-time.After(5 * time.Minute)` -/
  | timeout
  /-- `main` takes its next step after the `select` -/
  | main
  deriving DecidableEq, Repr

/-- The session when `main` reaches the `select`. -/
def Session.init : Session :=
  { codeCh := none, handlers := [], main := .waiting, serving := true, received := [],
    trace := [] }

/-- One step of the session. A step that is not enabled leaves the state as it
is: a request after the listener is closed, a send on the full channel, a
receive from the empty channel. `srv.Shutdown(ctx)` closes the listener and,
`ctx` being `context.Background()`, returns once every handler has returned. -/
def step {σ : Type} (api : Api σ) (s : Session) : Action → Session
  | .request q =>
    if s.serving then { s with handlers := s.handlers ++ [⟨q, .started, none, []⟩] } else s
  | .handler i =>
    match s.handlers[i]? with
    | none => s
    | some h =>
      let r := handlerStep s.codeCh h
      { s with codeCh := r.1, handlers := s.handlers.set i r.2 }
  | .receive =>
    match s.main, s.codeCh with
    | .waiting, some c =>
      { s with main := .selected (some c), codeCh := none, received := s.received ++ [c] }
    | _, _ => s
  | .timeout =>
    match s.main with
    | .waiting => { s with main := .selected none }
    | _ => s
  | .main =>
    match s.main with
    | .selected sel =>
      { s with main := .inShutdown sel, serving := false, trace := s.trace ++ [.shutdown] }
    | .inShutdown sel =>
      if s.handlers.all fun h => h.pc = .done then
        { s with main := .finished sel,
                 trace := s.trace ++ (afterShutdown api api.New sel).trace }
      else s
    | _ => s

/-- The session after a schedule. -/
def run {σ : Type} (api : Api σ) (acts : List Action) (s : Session) : Session :=
  acts.foldl (step api) s

/-- The codes the handler of the `i`-th request has put on `codeCh`. -/
def published (s : Session) (i : Nat) : List GoString :=
  match s.handlers[i]? with
  | some h => h.sent
  | none => []

/-- An `appie` client for which every call succeeds. -/
def okApi : Api Unit :=
  { New := (), NewDefault := (), NewWithConfig := .ok (), LoadConfig := fun _ => .ok (),
    IsAuthenticated := fun _ => true, ExchangeCode := fun _ _ => .ok (),
    SaveConfig := fun _ => .ok (), GetAnonymousToken := fun _ => .ok () }

/-! ## Vocabulary of the properties -/

/-- The event is a call of `client.ExchangeCode`. -/
def Event.isExchange : Event → Bool
  | .exchangeCode _ => true
  | _ => false

/-- The exchange succeeds on `code` and the save after it succeeds. -/
def exchangeSucceeds {σ : Type} (api : Api σ) (client : σ) (code : GoString) : Prop :=
  ∃ client1, api.ExchangeCode client code = .ok client1 ∧ api.SaveConfig client1 = .ok ()

/-- The run ended through `fatal`: its last events are an error object on
standard error and exit status 1, and the code did not return. -/
def endsFatal {α : Type} (r : Run α) : Prop :=
  r.result = none ∧ ∃ pre msg, r.trace = pre ++ [.stderr (fatalText msg), .exit 1]

/-- The raw queries of the `/callback` requests the server has accepted. -/
def requests (s : Session) : List GoString := s.handlers.map fun h => h.rawQuery

/-- What a handler has done, by where it stands: nothing before its first step;
with a non-empty code the success page is written and the code is either still
to be sent or has been sent once; with an empty code the answer is 400 and
nothing is sent. -/
def HandlerOk (h : Handler) : Prop :=
  match h.pc with
  | .started => h.response = none ∧ h.sent = []
  | .sending code =>
    code = callbackCode h.rawQuery ∧ code ≠ [] ∧ h.response = some successResponse ∧ h.sent = []
  | .done =>
    (callbackCode h.rawQuery = [] ∧ h.response = some missingCodeResponse ∧ h.sent = []) ∨
    (callbackCode h.rawQuery ≠ [] ∧ h.response = some successResponse ∧
      h.sent = [callbackCode h.rawQuery])

/-- What `main` has done, by where it stands. -/
def MainOk {σ : Type} (api : Api σ) (s : Session) : Prop :=
  match s.main with
  | .waiting => s.trace = [] ∧ s.received = [] ∧ s.serving = true
  | .selected sel => s.trace = [] ∧ s.received = sel.toList ∧ s.serving = true
  | .inShutdown sel => s.trace = [.shutdown] ∧ s.received = sel.toList ∧ s.serving = false
  | .finished sel =>
    s.trace = .shutdown :: (afterShutdown api api.New sel).trace ∧ s.received = sel.toList ∧
      s.serving = false

/-- The invariant of a login session: every handler and `main` have done what
their position says, and every code on the channel or received by `main` is
the non-empty `code` parameter of an accepted request. -/
def SessionOk {σ : Type} (api : Api σ) (s : Session) : Prop :=
  (∀ h ∈ s.handlers, HandlerOk h) ∧
  (∀ c, s.codeCh = some c → c ≠ [] ∧ ∃ q ∈ requests s, callbackCode q = c) ∧
  (∀ c ∈ s.received, c ≠ [] ∧ ∃ q ∈ requests s, callbackCode q = c) ∧
  MainOk api s

/-- The handler of the `i`-th request is blocked for good: it waits to send `code`,
the channel is full, and `main` is past its one receive. -/
def Stuck (s : Session) (i : Nat) (code : GoString) : Prop :=
  s.main ≠ .waiting ∧ s.codeCh.isSome = true ∧
    (s.handlers[i]?).map (fun h => h.pc) = some (.sending code) ∧
    (s.handlers[i]?).map (fun h => h.sent) = some []

/-- The response the client of a `/callback` request has received. What the
handler writes stays in the buffer of `net/http` (the success page has 553
bytes, the buffer 2048) and is sent when the handler returns: a handler that is
still in the send on `codeCh` has delivered nothing. -/
def delivered (h : Handler) : Option Response :=
  match h.pc with
  | .done => h.response
  | _ => none

/-- The response the client of the `i`-th `/callback` request has received. -/
def answer (s : Session) (i : Nat) : Option Response := (s.handlers[i]?).bind delivered

/-- The number of codes the handlers have put on `codeCh`. -/
def sentTotal (s : Session) : Nat := (s.handlers.map fun h => h.sent.length).sum

/-- The number of requests with a non-empty code whose handler has returned. -/
def answeredWithCode (s : Session) : Nat :=
  s.handlers.countP fun h => decide (h.pc = .done) && decide (callbackCode h.rawQuery ≠ [])

/-- An `appie` client without persisted credentials: loading them fails. -/
def noCredentialsApi : Api Unit :=
  { okApi with
    NewWithConfig := .error (lit "open .appie.json: no such file or directory"),
    LoadConfig := fun _ => .error (lit "open .appie.json: no such file or directory") }

/-- An `appie` client without persisted credentials and without network: loading
fails and the request of an anonymous token fails. -/
def offlineApi : Api Unit :=
  { noCredentialsApi with GetAnonymousToken := fun _ => .error (lit "dial tcp: no route to host") }

/-- A schedule of three concurrent callbacks: the first code goes on the channel,
`main` receives it, the second code goes on the channel, and the third handler
finds the channel full. -/
def threeCallbacks : List Action :=
  [.request (lit "code=A"), .request (lit "code=B"), .request (lit "code=C"),
   .handler 0, .handler 0, .handler 1, .handler 2, .receive, .handler 1, .handler 2]

/-- A schedule with a duplicated callback: both handlers run to their end, `main`
receives the first code and goes through the rest of its arm. -/
def duplicateCallbacks : List Action :=
  [.request (lit "code=ABC123"), .request (lit "code=ABC123"), .handler 0, .handler 0,
   .handler 1, .receive, .handler 1, .main, .main]

/-- A schedule in which the timer fires while two callbacks are in flight and
nothing is on the channel yet: both handlers have written the page, the
`select` takes the timer, `main` calls `srv.Shutdown`, the first handler puts
its code on the channel and the second finds the channel full. -/
def timeoutWithTwoInFlight : List Action :=
  [.request (lit "code=A"), .request (lit "code=B"), .handler 0, .handler 1, .timeout,
   .main, .handler 0, .handler 1]

/-- The schedule of scenario A: one callback with `code=ABC123`, then `main`. -/
def oneCallback : List Action :=
  [.request (lit "code=ABC123"), .handler 0, .handler 0, .receive, .main, .main]

/-! ### A recogniser for the JSON error object (RFC 8259) -/

/-- Skip JSON white space. -/
def skipWs : GoString → GoString
  | [] => []
  | c :: rest => if c = 0x20 || c = 0x09 || c = 0x0A || c = 0x0D then skipWs rest else c :: rest

/-- After white space, the byte `b`; the result is what follows it. -/
def expectByte (b : Nat) (s : GoString) : Option GoString :=
  match skipWs s with
  | c :: rest => if c = b then some rest else none
  | [] => none

/-- The byte a two-character JSON escape `\e` stands for. -/
def simpleEscape (e : Nat) : Option Nat :=
  if e = 0x22 then some 0x22
  else if e = 0x5C then some 0x5C
  else if e = 0x2F then some 0x2F
  else if e = 0x62 then some 0x08
  else if e = 0x66 then some 0x0C
  else if e = 0x6E then some 0x0A
  else if e = 0x72 then some 0x0D
  else if e = 0x74 then some 0x09
  else none

/-- A JSON string after its opening quote: the value it denotes and the text
after its closing quote. A raw control byte, a raw quote inside, or a bad
escape is an error. (`\uXXXX` of a surrogate is not decoded.) -/
def jsonStringTail : GoString → Option (GoString × GoString)
  | [] => none
  | c :: rest =>
    if c = 0x22 then some ([], rest)
    else if c < 0x20 then none
    else if c = 0x5C then
      match rest with
      | [] => none
      | e :: rest2 =>
        if e = 0x75 then
          match rest2 with
          | a :: b :: c2 :: d :: rest3 =>
            if ishex a && ishex b && ishex c2 && ishex d then
              let r := ((unhex a * 16 + unhex b) * 16 + unhex c2) * 16 + unhex d
              if 0xD800 ≤ r ∧ r ≤ 0xDFFF then none
              else (jsonStringTail rest3).map fun p => (utf8Encode r ++ p.1, p.2)
            else none
          | _ => none
        else
          match simpleEscape e with
          | some b => (jsonStringTail rest2).map fun p => (b :: p.1, p.2)
          | none => none
    else (jsonStringTail rest).map fun p => (c :: p.1, p.2)

/-- The text is a JSON object with the single key `error` and a string value;
the result is that value. -/
def jsonErrorObject (text : GoString) : Option GoString := do
  let t ← expectByte 0x7B text
  let t ← expectByte 0x22 t
  let kt ← jsonStringTail t
  if kt.1 ≠ lit "error" then none
  let t ← expectByte 0x3A kt.2
  let t ← expectByte 0x22 t
  let vt ← jsonStringTail t
  let t ← expectByte 0x7D vt.2
  if skipWs t = [] then some vt.1 else none

/-! # Theorems -/

/-! ## Lemmas on utf8 decoding and strings.TrimSpace -/

theorem decodeRune_size_pos (c : Nat) (t : GoString) : 1 ≤ (decodeRune (c :: t)).2 := by
  unfold decodeRune
  simp only
  (repeat' split) <;> simp

theorem decodeRune_size_le (s : GoString) : (decodeRune s).2 ≤ s.length := by
  unfold decodeRune
  repeat' split
  all_goals try simp
  all_goals repeat' split
  all_goals simp

theorem scanRuneStart_le (s : GoString) (lim i : Nat) : scanRuneStart s lim i ≤ i := by
  induction i with
  | zero => simp [scanRuneStart]
  | succ i ih =>
    unfold scanRuneStart
    split_ifs <;> omega

theorem decodeLastRune_size_pos (s : GoString) (h : s ≠ []) : 1 ≤ (decodeLastRune s).2 := by
  have hl : 0 < s.length := List.length_pos.mpr h
  unfold decodeLastRune
  simp only
  split_ifs with h1 h2 h3
  · omega
  · simp
  · simp
  · have := scanRuneStart_le s (s.length - 4) (s.length - 1)
    push_neg at h3
    omega

theorem decodeLastRune_size_le (s : GoString) : (decodeLastRune s).2 ≤ s.length := by
  unfold decodeLastRune
  simp only
  split_ifs with h1 h2 h3
  · simp
  · simp; omega
  · simp; omega
  · push_neg at h3
    omega

theorem isSpace_RuneError : isSpace RuneError = false := by decide

theorem decodeRune_take (s : GoString) (k : Nat) :
    (decodeRune (s.take k)).1 = RuneError ∨ decodeRune (s.take k) = decodeRune s := by
  rcases s with _ | ⟨a, t⟩
  · right; simp
  rcases k with _ | k
  · left; simp [decodeRune]
  simp only [List.take_succ_cons]
  by_cases h1 : a < 0x80
  · right; simp [decodeRune, h1]
  by_cases h2 : a < 0xC2
  · right; simp [decodeRune, h1, h2]
  by_cases h3 : a < 0xE0
  · rcases k with _ | k <;> rcases t with _ | ⟨b, t⟩ <;> simp [decodeRune, h1, h2, h3]
  by_cases h4 : a < 0xF0
  · rcases k with _ | _ | k <;> rcases t with _ | ⟨b, _ | ⟨c, t⟩⟩ <;>
      simp [decodeRune, h1, h2, h3, h4]
  by_cases h5 : a < 0xF5
  · rcases k with _ | _ | _ | k <;> rcases t with _ | ⟨b, _ | ⟨c, _ | ⟨d, t⟩⟩⟩ <;>
      simp [decodeRune, h1, h2, h3, h4, h5]
  · right; simp [decodeRune, h1, h2, h3, h4, h5]

theorem leftClean_take {s : GoString} (h : leftClean s) (k : Nat) : leftClean (s.take k) := by
  rcases h with h | h
  · left; simp [h]
  · rcases decodeRune_take s k with h1 | h1
    · right; rw [h1]; exact isSpace_RuneError
    · right; rw [h1]; exact h

theorem trimLeftLoop_drop (f : Nat) : ∀ s : GoString, ∃ k, trimLeftLoop f s = s.drop k := by
  induction f with
  | zero => intro s; exact ⟨0, by simp [trimLeftLoop]⟩
  | succ f ih =>
    intro s
    simp only [trimLeftLoop]
    split_ifs with h1 h2
    · exact ⟨s.length, by simp⟩
    · obtain ⟨k, hk⟩ := ih (s.drop (decodeRune s).2)
      exact ⟨(decodeRune s).2 + k, by rw [hk, List.drop_drop]⟩
    · exact ⟨0, by simp⟩

theorem trimRightLoop_take (f : Nat) : ∀ s : GoString, ∃ k, trimRightLoop f s = s.take k := by
  induction f with
  | zero => intro s; exact ⟨s.length, by simp [trimRightLoop]⟩
  | succ f ih =>
    intro s
    simp only [trimRightLoop]
    split_ifs with h1 h2
    · exact ⟨0, by simp⟩
    · obtain ⟨k, hk⟩ := ih (s.take (s.length - (decodeLastRune s).2))
      exact ⟨min k (s.length - (decodeLastRune s).2), by rw [hk, List.take_take]⟩
    · exact ⟨s.length, by simp⟩

theorem trimLeftLoop_clean (f : Nat) : ∀ s : GoString, s.length ≤ f → leftClean (trimLeftLoop f s) := by
  induction f with
  | zero =>
    intro s hs
    left
    have : s = [] := List.length_eq_zero.mp (by omega)
    simp [trimLeftLoop, this]
  | succ f ih =>
    intro s hs
    simp only [trimLeftLoop]
    split_ifs with h1 h2
    · left; rfl
    · apply ih
      obtain ⟨c, t, rfl⟩ := List.exists_cons_of_ne_nil h1
      have := decodeRune_size_pos c t
      simp only [List.length_drop, List.length_cons] at hs ⊢
      omega
    · right; simpa using h2

theorem trimRightLoop_clean (f : Nat) : ∀ s : GoString, s.length ≤ f → rightClean (trimRightLoop f s) := by
  induction f with
  | zero =>
    intro s hs
    left
    have : s = [] := List.length_eq_zero.mp (by omega)
    simp [trimRightLoop, this]
  | succ f ih =>
    intro s hs
    simp only [trimRightLoop]
    split_ifs with h1 h2
    · left; rfl
    · apply ih
      have := decodeLastRune_size_pos s h1
      have hl : 0 < s.length := List.length_pos.mpr h1
      simp only [List.length_take]
      omega
    · right; simpa using h2

theorem trimLeftLoop_of_clean {s : GoString} (h : leftClean s) (f : Nat) : trimLeftLoop f s = s := by
  cases f with
  | zero => rfl
  | succ f =>
    unfold trimLeftLoop
    rcases h with h | h
    · simp [h]
    · simp [h]

theorem trimRightLoop_of_clean {s : GoString} (h : rightClean s) (f : Nat) : trimRightLoop f s = s := by
  cases f with
  | zero => rfl
  | succ f =>
    unfold trimRightLoop
    rcases h with h | h
    · simp [h]
    · simp [h]

theorem TrimSpace_of_clean {s : GoString} (hl : leftClean s) (hr : rightClean s) : TrimSpace s = s := by
  simp [TrimSpace, trimLeftLoop_of_clean hl, trimRightLoop_of_clean hr]

theorem TrimSpace_clean (s : GoString) : leftClean (TrimSpace s) ∧ rightClean (TrimSpace s) := by
  unfold TrimSpace
  simp only
  constructor
  · obtain ⟨k, hk⟩ := trimRightLoop_take (trimLeftLoop s.length s).length (trimLeftLoop s.length s)
    rw [hk]
    exact leftClean_take (trimLeftLoop_clean _ _ le_rfl) k
  · exact trimRightLoop_clean _ _ le_rfl

theorem TrimSpace_idem (s : GoString) : TrimSpace (TrimSpace s) = TrimSpace s :=
  TrimSpace_of_clean (TrimSpace_clean s).1 (TrimSpace_clean s).2

theorem TrimSpace_slice (s : GoString) : TrimSpace s <:+: s := by
  unfold TrimSpace
  simp only
  obtain ⟨j, hj⟩ := trimLeftLoop_drop s.length s
  obtain ⟨k, hk⟩ := trimRightLoop_take (trimLeftLoop s.length s).length (trimLeftLoop s.length s)
  rw [hk, hj]
  exact (List.take_prefix _ _).isInfix.trans (List.drop_suffix _ _).isInfix

/-! ## What strings.TrimSpace removes is white space -/

theorem decodeRune3 (a b c : Nat) (t : GoString) (h3 : ¬ a < 0xE0) (h4 : a < 0xF0) :
    decodeRune (a :: b :: c :: t) =
      if (b < (if a = 0xE0 then 0xA0 else 0x80) ∨ (if a = 0xED then 0x9F else 0xBF) < b) then (RuneError, 1)
      else if isCont c = false then (RuneError, 1)
      else ((a % 16) * 4096 + (b % 64) * 64 + c % 64, 3) := by
  have h1 : ¬ a < 0x80 := by omega
  have h2 : ¬ a < 0xC2 := by omega
  simp [decodeRune, h1, h2, h3, h4]

theorem decodeRune4 (a b c d : Nat) (t : GoString) (h4 : ¬ a < 0xF0) (h5 : a < 0xF5) :
    decodeRune (a :: b :: c :: d :: t) =
      if (b < (if a = 0xF0 then 0x90 else 0x80) ∨ (if a = 0xF4 then 0x8F else 0xBF) < b) then (RuneError, 1)
      else if isCont c = false then (RuneError, 1)
      else if isCont d = false then (RuneError, 1)
      else ((a % 8) * 262144 + (b % 64) * 4096 + (c % 64) * 64 + d % 64, 4) := by
  have h1 : ¬ a < 0x80 := by omega
  have h2 : ¬ a < 0xC2 := by omega
  have h3 : ¬ a < 0xE0 := by omega
  simp [decodeRune, h1, h2, h3, h4, h5]

theorem decodeRune1 (a : Nat) (h3 : ¬ a < 0xC2) : decodeRune [a] = (RuneError, 1) := by
  have h1 : ¬ a < 0x80 := by omega
  simp only [decodeRune, h1, h3, if_false]
  split_ifs <;> rfl

theorem decodeRune_take_size (s : GoString) :
    decodeRune (s.take (decodeRune s).2) = decodeRune s := by
  rcases s with _ | ⟨a, t⟩
  · simp [decodeRune]
  by_cases h1 : a < 0x80
  · simp [decodeRune, h1]
  by_cases h2 : a < 0xC2
  · simp [decodeRune, h1, h2]
  by_cases h3 : a < 0xE0
  · rcases t with _ | ⟨b, t⟩
    · simp [decodeRune, h1, h2, h3]
    · by_cases hb : isCont b = true <;> simp [decodeRune, h1, h2, h3, hb]
  by_cases h4 : a < 0xF0
  · rcases t with _ | ⟨b, _ | ⟨c, t⟩⟩
    · simp [decodeRune, h1, h2, h3, h4]
    · simp [decodeRune, h1, h2, h3, h4]
    · rw [decodeRune3 a b c t h3 h4]
      by_cases hP : (b < (if a = 0xE0 then 0xA0 else 0x80) ∨ (if a = 0xED then 0x9F else 0xBF) < b)
      · rw [if_pos hP]
        simpa using decodeRune1 a h2
      · rw [if_neg hP]
        by_cases hc : isCont c = false
        · rw [if_pos hc]
          simpa using decodeRune1 a h2
        · rw [if_neg hc]
          simp only [List.take_succ_cons, List.take_zero]
          rw [decodeRune3 a b c [] h3 h4, if_neg hP, if_neg hc]
  by_cases h5 : a < 0xF5
  · rcases t with _ | ⟨b, _ | ⟨c, _ | ⟨d, t⟩⟩⟩
    · simp [decodeRune, h1, h2, h3, h4, h5]
    · simp [decodeRune, h1, h2, h3, h4, h5]
    · simp [decodeRune, h1, h2, h3, h4, h5]
    · rw [decodeRune4 a b c d t h4 h5]
      by_cases hP : (b < (if a = 0xF0 then 0x90 else 0x80) ∨ (if a = 0xF4 then 0x8F else 0xBF) < b)
      · rw [if_pos hP]
        simpa using decodeRune1 a h2
      · rw [if_neg hP]
        by_cases hc : isCont c = false
        · rw [if_pos hc]
          simpa using decodeRune1 a h2
        · rw [if_neg hc]
          by_cases hd : isCont d = false
          · rw [if_pos hd]
            simpa using decodeRune1 a h2
          · rw [if_neg hd]
            simp only [List.take_succ_cons, List.take_zero]
            rw [decodeRune4 a b c d [] h4 h5, if_neg hP, if_neg hc, if_neg hd]
  · simp [decodeRune, h1, h2, h3, h4, h5]

theorem trimLeftLoop_nil (f : Nat) : trimLeftLoop f [] = [] := by
  cases f <;> simp [trimLeftLoop]

theorem trimLeftLoop_fuel (f : Nat) : ∀ (g : Nat) (s : GoString), s.length ≤ f → s.length ≤ g →
    trimLeftLoop f s = trimLeftLoop g s := by
  induction f with
  | zero =>
    intro g s hf _
    have : s = [] := List.length_eq_zero.mp (by omega)
    simp [this, trimLeftLoop_nil]
  | succ f ih =>
    intro g s hf hg
    cases g with
    | zero =>
      have : s = [] := List.length_eq_zero.mp (by omega)
      simp [this, trimLeftLoop_nil]
    | succ g =>
      rcases s with _ | ⟨c, t⟩
      · simp [trimLeftLoop]
      · simp only [trimLeftLoop, List.cons_ne_nil, if_false]
        have hpos := decodeRune_size_pos c t
        split_ifs
        · apply ih
          · simp only [List.length_drop, List.length_cons] at hf ⊢; omega
          · simp only [List.length_drop, List.length_cons] at hg ⊢; omega
        · rfl

theorem allSpace_nil : allSpace [] := by
  simp [allSpace, trimLeftLoop]

theorem allSpace_rune (r : GoString) (hr : r ≠ []) (hd : (decodeRune r).2 = r.length)
    (hs : isSpace (decodeRune r).1 = true) : allSpace r := by
  unfold allSpace
  obtain ⟨k, hk⟩ : ∃ k, r.length = k + 1 := ⟨r.length - 1, by
    have := List.length_pos.mpr hr; omega⟩
  rw [hk]
  simp only [trimLeftLoop, hr, if_false, hs, if_true, hd]
  simp [trimLeftLoop_nil]

theorem allSpace_append_aux (f : Nat) : ∀ a : GoString, a.length ≤ f → trimLeftLoop f a = [] →
    ∀ b, allSpace b → trimLeftLoop (f + b.length) (a ++ b) = [] := by
  induction f with
  | zero =>
    intro a ha _ b hb
    have : a = [] := List.length_eq_zero.mp (by omega)
    simpa [this] using hb
  | succ f ih =>
    intro a ha hta b hb
    rcases a with _ | ⟨c, t⟩
    · simp only [List.nil_append]
      rw [trimLeftLoop_fuel _ b.length b (by omega) le_rfl]
      exact hb
    · have hfuel : f + 1 + b.length = (f + b.length) + 1 := by omega
      rw [hfuel]
      simp only [trimLeftLoop, List.cons_ne_nil, if_false, List.cons_append] at hta ⊢
      have hsp : isSpace (decodeRune (c :: t)).1 = true := by
        by_contra hn
        simp [hn] at hta
      simp only [hsp, if_true] at hta
      have heq : decodeRune (c :: (t ++ b)) = decodeRune (c :: t) := by
        have h := decodeRune_take (c :: (t ++ b)) (t.length + 1)
        have ht : List.take (t.length + 1) (c :: (t ++ b)) = c :: t := by simp
        rw [ht] at h
        rcases h with h | h
        · rw [h, isSpace_RuneError] at hsp
          cases hsp
        · exact h.symm
      rw [heq]
      simp only [hsp, if_true]
      have hle := decodeRune_size_le (c :: t)
      have hdrop : List.drop (decodeRune (c :: t)).2 (c :: (t ++ b)) =
          List.drop (decodeRune (c :: t)).2 (c :: t) ++ b := by
        rw [← List.cons_append, List.drop_append_of_le_length hle]
      rw [hdrop]
      apply ih _ _ hta b hb
      have hpos := decodeRune_size_pos c t
      simp only [List.length_drop, List.length_cons] at ha ⊢
      omega

theorem allSpace_append {a b : GoString} (ha : allSpace a) (hb : allSpace b) :
    allSpace (a ++ b) := by
  unfold allSpace
  rw [List.length_append]
  exact allSpace_append_aux a.length a le_rfl ha b hb

theorem trimLeftLoop_split (f : Nat) : ∀ s : GoString, s.length ≤ f →
    ∃ pre, s = pre ++ trimLeftLoop f s ∧ allSpace pre := by
  induction f with
  | zero =>
    intro s hs
    exact ⟨[], by simp [trimLeftLoop], allSpace_nil⟩
  | succ f ih =>
    intro s hs
    rcases s with _ | ⟨c, t⟩
    · exact ⟨[], by simp [trimLeftLoop], allSpace_nil⟩
    · simp only [trimLeftLoop, List.cons_ne_nil, if_false]
      split_ifs with hsp
      · have hpos := decodeRune_size_pos c t
        have hle := decodeRune_size_le (c :: t)
        obtain ⟨pre, hpre, hall⟩ := ih (List.drop (decodeRune (c :: t)).2 (c :: t)) (by
          simp only [List.length_drop, List.length_cons] at hs ⊢; omega)
        refine ⟨List.take (decodeRune (c :: t)).2 (c :: t) ++ pre, ?_, ?_⟩
        · rw [List.append_assoc, ← hpre, List.take_append_drop]
        · refine allSpace_append (allSpace_rune _ ?_ ?_ ?_) hall
          · intro h
            have := congrArg List.length h
            simp only [List.length_take, List.length_nil] at this
            omega
          · rw [decodeRune_take_size, List.length_take]
            omega
          · rw [decodeRune_take_size]
            exact hsp
      · exact ⟨[], by simp, allSpace_nil⟩

theorem drop_length_sub_one (s : GoString) (hs : s ≠ []) :
    s.drop (s.length - 1) = [s.getD (s.length - 1) 0] := by
  induction s with
  | nil => exact absurd rfl hs
  | cons c t ih =>
    rcases t with _ | ⟨d, t⟩
    · simp
    · have := ih (by simp)
      simp only [List.length_cons, Nat.add_sub_cancel] at this ⊢
      rw [List.drop_succ_cons, this]
      simp [List.getD_cons_succ]

theorem decodeLastRune_bytes (s : GoString) (hs : s ≠ [])
    (hsp : isSpace (decodeLastRune s).1 = true) :
    decodeRune (s.drop (s.length - (decodeLastRune s).2)) = decodeLastRune s ∧
      (decodeLastRune s).2 ≤ s.length := by
  have hl : 0 < s.length := List.length_pos.mpr hs
  refine ⟨?_, decodeLastRune_size_le s⟩
  unfold decodeLastRune at hsp ⊢
  simp only at hsp ⊢
  split_ifs at hsp ⊢ with h1 h2 h3
  · omega
  · simp only
    rw [drop_length_sub_one s hs]
    simp only [decodeRune, h2, if_true]
  · rw [isSpace_RuneError] at hsp
    cases hsp
  · push_neg at h3
    have : s.length - (decodeRune (List.drop (scanRuneStart s (s.length - 4) (s.length - 1) - 1) s)).2 =
        scanRuneStart s (s.length - 4) (s.length - 1) - 1 := by omega
    rw [this]

theorem trimRightLoop_split (f : Nat) : ∀ s : GoString, s.length ≤ f →
    ∃ post, s = trimRightLoop f s ++ post ∧ allSpace post := by
  induction f with
  | zero =>
    intro s hs
    exact ⟨[], by simp [trimRightLoop], allSpace_nil⟩
  | succ f ih =>
    intro s hs
    by_cases hnil : s = []
    · exact ⟨[], by simp [trimRightLoop, hnil], allSpace_nil⟩
    · simp only [trimRightLoop, hnil, if_false]
      split_ifs with hsp
      · have hpos := decodeLastRune_size_pos s hnil
        obtain ⟨hdec, hle⟩ := decodeLastRune_bytes s hnil hsp
        have hl : 0 < s.length := List.length_pos.mpr hnil
        obtain ⟨post, hpost, hall⟩ := ih (List.take (s.length - (decodeLastRune s).2) s) (by
          simp only [List.length_take]; omega)
        refine ⟨post ++ List.drop (s.length - (decodeLastRune s).2) s, ?_, ?_⟩
        · rw [← List.append_assoc, ← hpost, List.take_append_drop]
        · refine allSpace_append hall (allSpace_rune _ ?_ ?_ ?_)
          · intro h
            have := congrArg List.length h
            simp only [List.length_drop, List.length_nil] at this
            omega
          · rw [hdec, List.length_drop]
            omega
          · rw [hdec]
            exact hsp
      · exact ⟨[], by simp, allSpace_nil⟩

theorem TrimSpace_split (s : GoString) :
    ∃ pre post, s = pre ++ TrimSpace s ++ post ∧ allSpace pre ∧ allSpace post := by
  obtain ⟨pre, hpre, hall1⟩ := trimLeftLoop_split s.length s le_rfl
  obtain ⟨post, hpost, hall2⟩ :=
    trimRightLoop_split (trimLeftLoop s.length s).length (trimLeftLoop s.length s) le_rfl
  refine ⟨pre, post, ?_, hall1, hall2⟩
  unfold TrimSpace
  simp only
  rw [List.append_assoc, ← hpost, ← hpre]

/-! ## Lemmas on strings.Index, Contains and Cut -/

theorem HasPrefix_iff (s p : GoString) : HasPrefix s p = true ↔ p <+: s := by
  simp [HasPrefix]

theorem Contains_iff (s sep : GoString) : Contains s sep = true ↔ sep <:+: s := by
  unfold Contains
  induction s with
  | nil =>
    by_cases h : sep = [] <;> simp [Index, h]
  | cons c cs ih =>
    rw [List.infix_cons_iff, ← ih, ← HasPrefix_iff]
    by_cases hp : HasPrefix (c :: cs) sep = true
    · simp [Index, hp]
    · simp [Index, hp]

theorem Index_single_eq_none {s : GoString} {b : Nat} (h : b ∉ s) : Index s [b] = none := by
  induction s with
  | nil => simp [Index]
  | cons c cs ih =>
    simp only [List.mem_cons, not_or] at h
    have hc : (b == c) = false := by simpa using h.1
    simp [Index, HasPrefix, List.isPrefixOf, hc, ih h.2]

theorem Index_append_single {s : GoString} {b : Nat} (t : GoString) (h : b ∉ s) :
    Index (s ++ b :: t) [b] = some s.length := by
  induction s with
  | nil => simp [Index, HasPrefix, List.isPrefixOf]
  | cons c cs ih =>
    simp only [List.mem_cons, not_or] at h
    have hc : (b == c) = false := by simpa using h.1
    simp [Index, HasPrefix, List.isPrefixOf, hc, ih h.2]

theorem Cut_single_of_not_mem {s : GoString} {b : Nat} (h : b ∉ s) : Cut s [b] = (s, []) := by
  simp [Cut, Index_single_eq_none h]

theorem Cut_append_single {s : GoString} {b : Nat} (t : GoString) (h : b ∉ s) :
    Cut (s ++ b :: t) [b] = (s, t) := by
  simp [Cut, Index_append_single t h]

theorem Contains_single (s : GoString) (b : Nat) : Contains s [b] = true ↔ b ∈ s := by
  induction s with
  | nil => simp [Contains, Index]
  | cons c cs ih =>
    unfold Contains at ih ⊢
    by_cases hc : b = c
    · subst hc
      simp [Index, HasPrefix, List.isPrefixOf]
    · have hbc : (b == c) = false := by simpa using hc
      simp [Index, HasPrefix, List.isPrefixOf, hbc, hc, ih]

/-- Every string splits at its first `b`: either `b` does not occur, or the string
is a `b`-free part, then `b`, then the rest. -/
theorem exists_first_byte (s : GoString) (b : Nat) :
    b ∉ s ∨ ∃ u v, s = u ++ b :: v ∧ b ∉ u := by
  induction s with
  | nil => simp
  | cons c cs ih =>
    by_cases hc : c = b
    · right
      exact ⟨[], cs, by simp [hc], by simp⟩
    · rcases ih with h | ⟨u, v, huv, hu⟩
      · left
        simp [h, Ne.symm hc]
      · right
        exact ⟨c :: u, v, by simp [huv], by simp [hu, Ne.symm hc]⟩

/-! ## net/url on login-exit URLs -/

theorem lit_code_eq : lit "code=" = [99, 111, 100, 101, 61] := by decide
theorem lit_code : lit "code" = [99, 111, 100, 101] := by decide
theorem lit_amp : lit "&" = [38] := by decide
theorem lit_loginExit :
    lit "appie://login-exit?code=" =
      [97, 112, 112, 105, 101, 58, 47, 47, 108, 111, 103, 105, 110, 45, 101, 120, 105, 116, 63,
        99, 111, 100, 101, 61] := by decide

/-- The query-unescaping of a string without `%` and `+` is the string itself. -/
theorem QueryUnescape_plain {X : GoString} (h : ∀ b ∈ X, b ≠ 0x25 ∧ b ≠ 0x2B) :
    QueryUnescape X = some X := by
  have h1 : unescapeCheck .encodeQueryComponent X = true := by
    induction X with
    | nil => simp [unescapeCheck]
    | cons c cs ih =>
      have hc := h c (by simp)
      have := ih (fun b hb => h b (by simp [hb]))
      unfold unescapeCheck
      simp [hc.1, this]
  have h2 : unescapeDecode .encodeQueryComponent X = X := by
    clear h1
    induction X with
    | nil => simp [unescapeDecode]
    | cons c cs ih =>
      have hc := h c (by simp)
      have := ih (fun b hb => h b (by simp [hb]))
      unfold unescapeDecode
      simp [hc.1, hc.2, this]
  simp [QueryUnescape, unescape, h1, h2]

theorem forceQuery_false (A B : GoString) (hB : B ≠ []) :
    (HasSuffix (A ++ 0x3F :: B) [0x3F] && decide (CountByte (A ++ 0x3F :: B) 0x3F = 1)) = false := by
  rw [Bool.and_eq_false_iff]
  by_cases hc : CountByte (A ++ 0x3F :: B) 0x3F = 1
  · left
    have hB0 : B.count 0x3F = 0 := by
      simp [CountByte, List.count_append] at hc
      omega
    have hmem : (0x3F : Nat) ∉ B := List.count_eq_zero.mp hB0
    obtain ⟨B', b, rfl⟩ : ∃ B' b, B = B' ++ [b] := by
      rcases List.eq_nil_or_concat B with h | ⟨L, b, h⟩
      · exact absurd h hB
      · exact ⟨L, b, by simpa using h⟩
    have hb : b ≠ 0x3F := by
      intro hb
      exact hmem (by simp [hb])
    have : (63 == b) = false := by simpa using Ne.symm hb
    simp [HasSuffix, List.isPrefixOf, this]
  · right
    simpa using hc


/-- `parse` on `appie://login-exit?` followed by a non-empty query `q`: it fails on a
control byte and otherwise yields the raw query `q`. -/
theorem parse_loginExit (q : GoString) (hq : q ≠ []) :
    parse ([97, 112, 112, 105, 101, 58, 47, 47, 108, 111, 103, 105, 110, 45, 101, 120, 105, 116, 63] ++ q) =
      if stringContainsCTLByte q then none
      else some { Scheme := [97, 112, 112, 105, 101],
                  Host := [108, 111, 103, 105, 110, 45, 101, 120, 105, 116],
                  RawQuery := q } := by
  have hfq := forceQuery_false [47, 47, 108, 111, 103, 105, 110, 45, 101, 120, 105, 116] q hq
  have hcut := Cut_append_single (s := [47, 47, 108, 111, 103, 105, 110, 45, 101, 120, 105, 116])
    (b := 0x3F) q (by decide)
  have hauth : parseAuthority [108, 111, 103, 105, 110, 45, 101, 120, 105, 116] =
      some (none, [108, 111, 103, 105, 110, 45, 101, 120, 105, 116]) := by decide
  have hidx : Index [108, 111, 103, 105, 110, 45, 101, 120, 105, 116] [0x2F] = none := by decide
  simp only [List.cons_append, List.nil_append] at hfq hcut ⊢
  unfold parse
  simp [stringContainsCTLByte, getScheme, getSchemeLoop, hfq, hcut, HasPrefix, List.isPrefixOf,
    toLowerByte, hauth, hidx, URL.setPath, unescape, unescapeCheck, unescapeDecode]

/-- The query `code=X` or `code=X&more`, for `X` without `& ; % +`, has `X` as the
first value of `code`. -/
theorem Query_Get_code (u : URL) (X r0 : GoString)
    (hX : ∀ b ∈ X, b ≠ 0x26 ∧ b ≠ 0x3B ∧ b ≠ 0x25 ∧ b ≠ 0x2B)
    (hr : r0 = [] ∨ ∃ more, r0 = 0x26 :: more)
    (hu : u.RawQuery = [99, 111, 100, 101, 61] ++ X ++ r0) :
    (URL.Query u).Get [99, 111, 100, 101] = X := by
  have hamp : (0x26 : Nat) ∉ [99, 111, 100, 101, 61] ++ X := by
    simp only [List.mem_append, not_or]
    exact ⟨by decide, fun hm => (hX _ hm).1 rfl⟩
  have hsemi : Contains ([99, 111, 100, 101, 61] ++ X) [0x3B] = false := by
    rw [Bool.eq_false_iff, Ne, Contains_single]
    simp only [List.mem_append, not_or]
    exact ⟨by decide, fun hm => (hX _ hm).2.1 rfl⟩
  have hkv : Cut ([99, 111, 100, 101, 61] ++ X) [0x3D] = ([99, 111, 100, 101], X) :=
    Cut_append_single (s := [99, 111, 100, 101]) (b := 0x3D) X (by decide)
  have hval : QueryUnescape X = some X :=
    QueryUnescape_plain fun b hb => ⟨(hX b hb).2.2.1, (hX b hb).2.2.2⟩
  have hkey : QueryUnescape [99, 111, 100, 101] = some [99, 111, 100, 101] := by decide
  have hcut : ∃ q2, Cut ([99, 111, 100, 101, 61] ++ X ++ r0) [0x26] = ([99, 111, 100, 101, 61] ++ X, q2) := by
    rcases hr with rfl | ⟨more, rfl⟩
    · exact ⟨[], by rw [List.append_nil]; exact Cut_single_of_not_mem hamp⟩
    · exact ⟨more, by rw [List.append_assoc]; exact Cut_append_single more hamp⟩
  obtain ⟨q2, hq2⟩ := hcut
  have hlen : u.RawQuery.length = (4 + X.length + r0.length) + 1 := by
    rw [hu]; simp; omega
  unfold URL.Query
  rw [hlen, hu]
  unfold parseQueryLoop
  simp only [hq2, hsemi, hkv, hval, hkey]
  simp [Values.Get]

/-- C1 (amended): for every code value `X` that contains none of the bytes `&`, `#`,
`%`, `+`, `;`, and every URL `appie://login-exit?code=X` or
`appie://login-exit?code=X&<more parameters>` that carries no surrounding white
space, `extractCode` returns exactly `X`. -/
theorem extractCode_loginExit (X rest : GoString)
    (hX : ∀ b ∈ X, b ≠ 0x26 ∧ b ≠ 0x23 ∧ b ≠ 0x25 ∧ b ≠ 0x2B ∧ b ≠ 0x3B)
    (hrest0 : rest = [] ∨ HasPrefix rest (lit "&") = true)
    (hws : TrimSpace (lit "appie://login-exit?code=" ++ X ++ rest) =
      lit "appie://login-exit?code=" ++ X ++ rest) :
    extractCode (lit "appie://login-exit?code=" ++ X ++ rest) = X := by
  have hrest : rest = [] ∨ ∃ more, rest = 0x26 :: more := by
    rcases hrest0 with h | h
    · exact Or.inl h
    · right
      rcases rest with _ | ⟨c, more⟩
      · simp [HasPrefix, lit_amp, List.isPrefixOf] at h
      · simp [HasPrefix, lit_amp, List.isPrefixOf] at h
        exact ⟨more, by rw [h]⟩
  have hamp : (0x26 : Nat) ∉ X := fun hm => (hX _ hm).1 rfl
  have hhash : (0x23 : Nat) ∉ X := fun hm => (hX _ hm).2.1 rfl
  -- the manual fallback yields `X`
  have hfb : extractCodeFallback (lit "appie://login-exit?code=" ++ X ++ rest) = X := by
    have hi : Index (lit "appie://login-exit?code=" ++ X ++ rest) (lit "code=") = some 19 := by
      simp [lit_loginExit, lit_code_eq, Index, HasPrefix, List.isPrefixOf]
    have hd : (lit "appie://login-exit?code=" ++ X ++ rest).drop (19 + (lit "code=").length) = X ++ rest := by
      simp [lit_loginExit, lit_code_eq]
    unfold extractCodeFallback SplitN2
    rw [hi]
    simp only [hd, lit_amp]
    rcases hrest with rfl | ⟨more, rfl⟩
    · simp [Index_single_eq_none hamp]
    · simp [Index_append_single more hamp]
  -- the structured parse yields the empty string or `X`
  have hparse : ∀ u, Parse (lit "appie://login-exit?code=" ++ X ++ rest) = some u →
      (URL.Query u).Get (lit "code") = X := by
    intro u hu
    rw [lit_code]
    -- split the URL at its first `#`
    obtain ⟨r0, frag, hr0, hcut⟩ : ∃ r0 frag, (r0 = [] ∨ ∃ more, r0 = 0x26 :: more) ∧
        Cut (lit "appie://login-exit?code=" ++ X ++ rest) [0x23] =
          ([97, 112, 112, 105, 101, 58, 47, 47, 108, 111, 103, 105, 110, 45, 101, 120, 105, 116, 63] ++
            ([99, 111, 100, 101, 61] ++ X ++ r0), frag) := by
      rcases exists_first_byte rest 0x23 with hn | ⟨a, b, hab, ha⟩
      · refine ⟨rest, [], hrest, ?_⟩
        have : (0x23 : Nat) ∉ lit "appie://login-exit?code=" ++ X ++ rest := by
          simp only [List.mem_append, not_or]
          exact ⟨⟨by rw [lit_loginExit]; decide, hhash⟩, hn⟩
        rw [Cut_single_of_not_mem this, lit_loginExit]
        simp
      · refine ⟨a, b, ?_, ?_⟩
        · rcases hrest with rfl | ⟨more, rfl⟩
          · simp at hab
          · rcases a with _ | ⟨a0, a1⟩
            · simp at hab
            · simp at hab
              exact Or.inr ⟨a1, by rw [hab.1]⟩
        · have : (0x23 : Nat) ∉ lit "appie://login-exit?code=" ++ X ++ a := by
            simp only [List.mem_append, not_or]
            exact ⟨⟨by rw [lit_loginExit]; decide, hhash⟩, ha⟩
          have h2 := Cut_append_single b this
          rw [hab, ← List.append_assoc, h2, lit_loginExit]
          simp
    unfold Parse at hu
    rw [hcut] at hu
    simp only at hu
    rw [parse_loginExit _ (by simp)] at hu
    have hq : u.RawQuery = [99, 111, 100, 101, 61] ++ X ++ r0 := by
      split_ifs at hu with h1 h2
      · simp only [Option.some.injEq] at hu
        rw [← hu]
      · simp only [URL.setFragment, Option.map_eq_some'] at hu
        obtain ⟨f, _, hf⟩ := hu
        rw [← hf]
    exact Query_Get_code u X r0 (fun b hb => ⟨(hX b hb).1, (hX b hb).2.2.2.2, (hX b hb).2.2.1, (hX b hb).2.2.2.1⟩) hr0 hq
  have hc : Contains (lit "appie://login-exit?code=" ++ X ++ rest) (lit "code=") = true := by
    rw [Contains_iff]
    exact ⟨[97, 112, 112, 105, 101, 58, 47, 47, 108, 111, 103, 105, 110, 45, 101, 120, 105, 116, 63], X ++ rest,
      by simp [lit_loginExit, lit_code_eq]⟩
  unfold extractCode
  simp only [hws, hc, if_true]
  cases hP : Parse (lit "appie://login-exit?code=" ++ X ++ rest) with
  | none => simpa using hfb
  | some u =>
    have := hparse u hP
    simp only [this]
    split_ifs with h
    · rfl
    · push_neg at h
      rw [hfb]

/-- Witness of C1 (amended) at `appie://login-exit?code=XYZ&state=1`: the result is
`XYZ`, not `XYZ&state=1`. -/
theorem extractCode_loginExit_witness :
    (∀ b ∈ lit "XYZ", b ≠ 0x26 ∧ b ≠ 0x23 ∧ b ≠ 0x25 ∧ b ≠ 0x2B ∧ b ≠ 0x3B) ∧
    (lit "&state=1" = [] ∨ HasPrefix (lit "&state=1") (lit "&") = true) ∧
    TrimSpace (lit "appie://login-exit?code=" ++ lit "XYZ" ++ lit "&state=1") =
      lit "appie://login-exit?code=" ++ lit "XYZ" ++ lit "&state=1" ∧
    extractCode (lit "appie://login-exit?code=" ++ lit "XYZ" ++ lit "&state=1") = lit "XYZ" :=
  ⟨by decide, by decide, by decide,
    extractCode_loginExit (lit "XYZ") (lit "&state=1") (by decide) (by decide) (by decide)⟩

/-- C1 fails as stated: for the code value `a+b`, the well-formed URL
`appie://login-exit?code=a+b` is parsed by `url.Parse` and its query is
unescaped, so `extractCode` returns `a b`, not `a+b`. -/
theorem extractCode_plus_decoded :
    extractCode (lit "appie://login-exit?code=a+b") = lit "a b" ∧
      extractCode (lit "appie://login-exit?code=a+b") ≠ lit "a+b" := by
  decide

/-! ## extractCode -/

theorem Contains_TrimSpace {s sep : GoString} (h : Contains s sep = false) :
    Contains (TrimSpace s) sep = false := by
  rw [Bool.eq_false_iff] at h ⊢
  intro hc
  exact h ((Contains_iff _ _).mpr (((Contains_iff _ _).mp hc).trans (TrimSpace_slice s)))

/-- C2: for every input `s` that does not contain `code=`, `extractCode s` is
`strings.TrimSpace s`: `s` is white space, then `extractCode s`, then white
space, and `extractCode s` neither starts nor ends with a white-space rune. -/
theorem extractCode_bare (s : GoString) (h : Contains s (lit "code=") = false) :
    extractCode s = TrimSpace s ∧
    (∃ pre post, s = pre ++ extractCode s ++ post ∧ allSpace pre ∧ allSpace post) ∧
    leftClean (extractCode s) ∧ rightClean (extractCode s) := by
  have he : extractCode s = TrimSpace s := by
    simp [extractCode, Contains_TrimSpace h]
  rw [he]
  exact ⟨rfl, TrimSpace_split s, TrimSpace_clean s⟩

/-- Witness of C2 at the input `"  ABC123\n"`. -/
theorem extractCode_bare_witness :
    Contains (lit "  ABC123\n") (lit "code=") = false ∧
      extractCode (lit "  ABC123\n") = TrimSpace (lit "  ABC123\n") ∧
      TrimSpace (lit "  ABC123\n") = lit "ABC123" :=
  ⟨by decide, (extractCode_bare (lit "  ABC123\n") (by decide)).1, by decide⟩

/-- C3 fails as stated: `extractCode` of `code=code=abc` is `code=abc` (the URL has
no query, so the manual fallback runs), and `extractCode` of that is `abc`. -/
theorem extractCode_not_idempotent :
    extractCode (lit "code=code=abc") = lit "code=abc" ∧
    extractCode (extractCode (lit "code=code=abc")) = lit "abc" ∧
    extractCode (extractCode (lit "code=code=abc")) ≠ extractCode (lit "code=code=abc") := by
  decide

/-! ## The sequential code of the commands -/

theorem exchangeAndSave_cases {σ : Type} (api : Api σ) (client : σ) (code : GoString) :
    (exchangeSucceeds api client code ∧
      exchangeAndSave api client code =
        ⟨[.exchangeCode code, .saveConfig, .stdout successObject], some ()⟩) ∨
    (¬ exchangeSucceeds api client code ∧
      ((∃ err, exchangeAndSave api client code =
          ⟨[.exchangeCode code, .stderr (fatalText (sprintfV (lit "Exchange failed: ") err)),
            .exit 1], none⟩) ∨
       (∃ err, exchangeAndSave api client code =
          ⟨[.exchangeCode code, .saveConfig,
            .stderr (fatalText (sprintfV (lit "Save config failed: ") err)), .exit 1], none⟩))) := by
  unfold exchangeSucceeds
  cases hE : api.ExchangeCode client code with
  | error err =>
    right
    refine ⟨by simp, Or.inl ⟨err, ?_⟩⟩
    simp [exchangeAndSave, hE, Bind.bind, Run.bind, emit, fatal, osExit]
  | ok c1 =>
    cases hS : api.SaveConfig c1 with
    | error err =>
      right
      refine ⟨by simp [hS], Or.inr ⟨err, ?_⟩⟩
      simp [exchangeAndSave, hE, hS, Bind.bind, Run.bind, emit, fatal, osExit]
    | ok u =>
      left
      refine ⟨⟨c1, rfl, hS⟩, ?_⟩
      simp [exchangeAndSave, hE, hS, Bind.bind, Run.bind, emit, fatal, osExit]

/-! ## The invariant of the login session -/

theorem map_set_same {α β : Type} (f : α → β) (l : List α) (i : Nat) (a b : α)
    (hi : l[i]? = some a) (hf : f b = f a) : (l.set i b).map f = l.map f := by
  induction l generalizing i with
  | nil => simp
  | cons x xs ih =>
    cases i with
    | zero =>
      simp at hi
      simp [hf, hi]
    | succ i =>
      simp at hi
      simp [ih i hi]

theorem handlerStep_rawQuery (ch : Option GoString) (h : Handler) :
    (handlerStep ch h).2.rawQuery = h.rawQuery := by
  unfold handlerStep
  split
  · dsimp only
    split_ifs <;> rfl
  · split <;> rfl
  · rfl

theorem handlerStep_ok (ch : Option GoString) (h : Handler) (hok : HandlerOk h) :
    HandlerOk (handlerStep ch h).2 := by
  unfold handlerStep
  split
  next hpc =>
    have hs : h.sent = [] := by
      simp only [HandlerOk, hpc] at hok
      exact hok.2
    dsimp only
    split_ifs with hc
    · simp [HandlerOk, hc, hs]
    · simp [HandlerOk, hc, hs]
  next code hpc =>
    simp only [HandlerOk, hpc] at hok
    split
    · simp only [HandlerOk]
      right
      obtain ⟨h1, h2, h3, h4⟩ := hok
      refine ⟨h1 ▸ h2, h3, ?_⟩
      simp [h4, h1]
    · simpa [HandlerOk, hpc] using hok
  next hpc =>
    exact hok

theorem handlerStep_chan (ch : Option GoString) (h : Handler) (hok : HandlerOk h) (c : GoString)
    (hc : (handlerStep ch h).1 = some c) :
    ch = some c ∨ (c ≠ [] ∧ callbackCode h.rawQuery = c) := by
  unfold handlerStep at hc
  split at hc
  · dsimp only at hc
    split_ifs at hc <;> exact Or.inl hc
  next code hpc =>
    simp only [HandlerOk, hpc] at hok
    split at hc
    · simp at hc
      right
      subst hc
      exact ⟨hok.2.1, hok.1.symm⟩
    · exact Or.inl hc
  · exact Or.inl hc

theorem step_ok {σ : Type} (api : Api σ) (s : Session) (a : Action) (hs : SessionOk api s) :
    SessionOk api (step api s a) := by
  obtain ⟨hH, hC, hR, hM⟩ := hs
  cases a with
  | request q =>
    simp only [step]
    split_ifs with hsv
    · refine ⟨?_, ?_, ?_, ?_⟩
      · intro h hh
        simp only [List.mem_append, List.mem_singleton] at hh
        rcases hh with hh | rfl
        · exact hH h hh
        · simp [HandlerOk]
      · intro c hc
        obtain ⟨h1, q1, hq1, h2⟩ := hC c hc
        exact ⟨h1, q1, by simp [requests] at hq1 ⊢; exact Or.inl hq1, h2⟩
      · intro c hc
        obtain ⟨h1, q1, hq1, h2⟩ := hR c hc
        exact ⟨h1, q1, by simp [requests] at hq1 ⊢; exact Or.inl hq1, h2⟩
      · simpa [MainOk] using hM
    · exact ⟨hH, hC, hR, hM⟩
  | handler i =>
    simp only [step]
    split
    · exact ⟨hH, hC, hR, hM⟩
    next h hi =>
      have hmem : h ∈ s.handlers := List.getElem?_mem hi
      have hreq : (s.handlers.set i (handlerStep s.codeCh h).2).map (fun h => h.rawQuery) =
          s.handlers.map (fun h => h.rawQuery) :=
        map_set_same _ _ _ _ _ hi (handlerStep_rawQuery _ _)
      refine ⟨?_, ?_, ?_, ?_⟩
      · intro h' hh'
        rcases List.mem_or_eq_of_mem_set hh' with hh' | rfl
        · exact hH h' hh'
        · exact handlerStep_ok _ _ (hH h hmem)
      · intro c hc
        simp only [requests, hreq]
        rcases handlerStep_chan _ _ (hH h hmem) c hc with h1 | ⟨h1, h2⟩
        · exact hC c h1
        · exact ⟨h1, h.rawQuery, List.mem_map.mpr ⟨h, hmem, rfl⟩, h2⟩
      · intro c hc
        simp only [requests, hreq]
        exact hR c hc
      · simpa [MainOk] using hM
  | receive =>
    simp only [step]
    split
    next c hm hc =>
      simp only [MainOk, hm] at hM
      refine ⟨hH, by simp, ?_, ?_⟩
      · intro c' hc'
        simp only [hM.2.1, List.nil_append, List.mem_singleton] at hc'
        subst hc'
        exact hC c' hc
      · simp [MainOk, hM]
    · exact ⟨hH, hC, hR, hM⟩
  | timeout =>
    simp only [step]
    split
    next hm =>
      simp only [MainOk, hm] at hM
      exact ⟨hH, hC, hR, by simp [MainOk, hM]⟩
    · exact ⟨hH, hC, hR, hM⟩
  | main =>
    simp only [step]
    split
    next sel hm =>
      simp only [MainOk, hm] at hM
      exact ⟨hH, hC, hR, by simp [MainOk, hM]⟩
    next sel hm =>
      simp only [MainOk, hm] at hM
      split_ifs
      · exact ⟨hH, hC, hR, by simp [MainOk, hM]⟩
      · exact ⟨hH, hC, hR, by simp [MainOk, hm, hM]⟩
    · exact ⟨hH, hC, hR, hM⟩

theorem init_ok {σ : Type} (api : Api σ) : SessionOk api Session.init := by
  simp [SessionOk, Session.init, MainOk, requests]

theorem run_ok {σ : Type} (api : Api σ) (acts : List Action) :
    ∀ s, SessionOk api s → SessionOk api (run api acts s) := by
  induction acts with
  | nil => intro s hs; exact hs
  | cons a as ih => intro s hs; exact ih _ (step_ok api s a hs)


theorem afterShutdown_timeout {σ : Type} (api : Api σ) (client : σ) :
    afterShutdown api client none =
      ⟨[.stderr (fatalText (lit "Login timed out after 5 minutes")), .exit 1], none⟩ := by
  simp [afterShutdown, fatal, Bind.bind, Run.bind, emit, osExit]

theorem exchangeAndSave_outcome {σ : Type} (api : Api σ) (client : σ) (code : GoString) :
    (exchangeAndSave api client code).trace.filter Event.isExchange = [.exchangeCode code] ∧
    (.stdout successObject ∈ (exchangeAndSave api client code).trace ↔
      exchangeSucceeds api client code) ∧
    (¬ exchangeSucceeds api client code → endsFatal (exchangeAndSave api client code)) ∧
    (∃ rest, (exchangeAndSave api client code).trace = .exchangeCode code :: rest ∧
      .shutdown ∉ rest) := by
  rcases exchangeAndSave_cases api client code with ⟨hs, he⟩ | ⟨hs, ⟨err, he⟩ | ⟨err, he⟩⟩
  · rw [he]
    refine ⟨by simp [List.filter, Event.isExchange], by simp [hs], fun h => absurd hs h, ?_⟩
    exact ⟨_, rfl, by simp⟩
  · rw [he]
    refine ⟨by simp [List.filter, Event.isExchange], by simp [hs], fun _ => ?_, ?_⟩
    · exact ⟨rfl, [.exchangeCode code], _, rfl⟩
    · exact ⟨_, rfl, by simp⟩
  · rw [he]
    refine ⟨by simp [List.filter, Event.isExchange], by simp [hs], fun _ => ?_, ?_⟩
    · exact ⟨rfl, [.exchangeCode code, .saveConfig], _, rfl⟩
    · exact ⟨_, rfl, by simp⟩

theorem exchangeCodeCmd_eq {σ : Type} (api : Api σ) (prog cmd a : GoString) (more : List GoString) :
    exchangeCodeCmd api (prog :: cmd :: a :: more) = exchangeAndSave api api.New (extractCode a) := by
  simp [exchangeCodeCmd]

theorem mem_afterShutdown {σ : Type} (api : Api σ) (client : σ) (sel : Option GoString)
    (c : GoString) (h : Event.exchangeCode c ∈ (afterShutdown api client sel).trace) :
    sel = some c := by
  cases sel with
  | none => simp [afterShutdown_timeout] at h
  | some c' =>
    have h1 := (exchangeAndSave_outcome api client c').1
    have : Event.exchangeCode c ∈ (exchangeAndSave api client c').trace.filter Event.isExchange :=
      List.mem_filter.mpr ⟨h, rfl⟩
    rw [h1] at this
    simp at this
    rw [this]

theorem run_init_ok {σ : Type} (api : Api σ) (acts : List Action) :
    SessionOk api (run api acts Session.init) :=
  run_ok api acts _ (init_ok api)

/-- The exchange events of a session are the codes `main` has received, and there
is at most one. -/
theorem session_trace {σ : Type} (api : Api σ) (s : Session) (hM : MainOk api s) :
    s.received.length ≤ 1 ∧ (s.trace.filter Event.isExchange).length ≤ 1 ∧
    s.trace.count .shutdown ≤ 1 ∧
    (∀ c, Event.exchangeCode c ∈ s.trace → s.received = [c]) := by
  unfold MainOk at hM
  split at hM
  · simp [hM]
  · rename_i sel _
    rw [hM.1, hM.2.1]
    cases sel <;> simp
  · rename_i sel _
    rw [hM.1, hM.2.1]
    cases sel <;> simp [List.filter, Event.isExchange]
  · rename_i sel _
    rw [hM.1, hM.2.1]
    cases sel with
    | none => simp [afterShutdown_timeout, List.filter, Event.isExchange]
    | some c' =>
      obtain ⟨h1, _, _, rest, h4, h5⟩ := exchangeAndSave_outcome api api.New c'
      simp only [afterShutdown]
      refine ⟨by simp, ?_, ?_, ?_⟩
      · rw [List.filter_cons_of_neg (by simp [Event.isExchange]), h1]
        simp
      · rw [h4]
        simp [List.count_cons, List.count_eq_zero.mpr h5]
      · intro c hc
        simp only [List.mem_cons] at hc
        rcases hc with hc | hc
        · cases hc
        · have := mem_afterShutdown api api.New (some c') c hc
          simp at this
          simp [this]

/-- C4 (amended): the exchange-code command with argument `a` passes
`extractCode a` to `ExchangeCode`. In the login flow every code passed to
`ExchangeCode` is the one code `main` received, and it is the non-empty value of
the `code` parameter of an accepted `/callback` request, as it came: `extractCode`
is not applied to it. -/
theorem exchanged_code {σ : Type} (api : Api σ) (prog cmd a : GoString) (more : List GoString)
    (acts : List Action) :
    (exchangeCodeCmd api (prog :: cmd :: a :: more)).trace.filter Event.isExchange =
      [.exchangeCode (extractCode a)] ∧
    (∀ c, Event.exchangeCode c ∈ (run api acts Session.init).trace →
      (run api acts Session.init).received = [c] ∧ c ≠ [] ∧
      ∃ q ∈ requests (run api acts Session.init), callbackCode q = c) := by
  refine ⟨?_, ?_⟩
  · rw [exchangeCodeCmd_eq]
    exact (exchangeAndSave_outcome api api.New (extractCode a)).1
  · intro c hc
    obtain ⟨_, _, hR, hM⟩ := run_init_ok api acts
    have hr := (session_trace api _ hM).2.2.2 c hc
    have := hR c (by rw [hr]; simp)
    exact ⟨hr, this.1, this.2⟩

/-- C5 (amended): after every schedule, a handler that has run has answered 400
and sent nothing when the `code` parameter is absent or empty; otherwise it has
written the success page with status 200 and has put that code on the channel
at most once: it is either still in the send, with nothing sent, or has returned
after sending exactly that code. The send completes in one step when the slot of
the channel is free and leaves the handler blocked when it is full. -/
theorem callback_handler {σ : Type} (api : Api σ) (acts : List Action) :
    (∀ h ∈ (run api acts Session.init).handlers, h.pc ≠ .started →
      (callbackCode h.rawQuery = [] →
        h.response = some missingCodeResponse ∧ h.sent = [] ∧ h.pc = .done) ∧
      (callbackCode h.rawQuery ≠ [] →
        h.response = some successResponse ∧
        ((h.pc = .sending (callbackCode h.rawQuery) ∧ h.sent = []) ∨
         (h.pc = .done ∧ h.sent = [callbackCode h.rawQuery])))) ∧
    (∀ (h : Handler) (code : GoString), h.pc = .sending code →
      handlerStep none h = (some code, { h with pc := .done, sent := h.sent ++ [code] }) ∧
      ∀ c0, handlerStep (some c0) h = (some c0, h)) := by
  refine ⟨?_, ?_⟩
  · intro h hh hpc
    obtain ⟨hH, _, _, _⟩ := run_init_ok api acts
    have hok := hH h hh
    unfold HandlerOk at hok
    split at hok
    · rename_i hp; exact absurd hp hpc
    · rename_i code hp
      obtain ⟨h1, h2, h3, h4⟩ := hok
      subst h1
      exact ⟨fun h0 => absurd h0 h2, fun _ => ⟨h3, Or.inl ⟨hp, h4⟩⟩⟩
    · rename_i hp
      rcases hok with hok | hok
      · exact ⟨fun _ => ⟨hok.2.1, hok.2.2, hp⟩, fun h0 => absurd hok.1 h0⟩
      · exact ⟨fun h0 => absurd h0 hok.1, fun _ => ⟨hok.2.1, Or.inr ⟨hp, hok.2.2⟩⟩⟩
  · intro h code hp
    constructor
    · simp [handlerStep, hp]
    · intro c0
      simp [handlerStep, hp]

/-! ## A handler that stays blocked -/

theorem handlerStep_full (c0 : GoString) (h : Handler) :
    (handlerStep (some c0) h).1 = some c0 := by
  unfold handlerStep
  split
  · dsimp only
    split_ifs <;> rfl
  · rfl
  · rfl

theorem step_stuck {σ : Type} (api : Api σ) (s : Session) (a : Action) (i : Nat)
    (code : GoString) (hs : Stuck s i code) : Stuck (step api s a) i code := by
  obtain ⟨hm, hc, hp, hsent⟩ := hs
  obtain ⟨c0, hc0⟩ := Option.isSome_iff_exists.mp hc
  obtain ⟨hi, hhi⟩ : ∃ h, s.handlers[i]? = some h := by
    cases hget : s.handlers[i]? with
    | none => simp [hget] at hp
    | some h => exact ⟨h, rfl⟩
  have hlt : i < s.handlers.length := by
    by_contra hn
    rw [List.getElem?_eq_none (by omega)] at hhi
    cases hhi
  cases a with
  | request q =>
    simp only [step]
    split_ifs
    · refine ⟨hm, hc, ?_, ?_⟩
      · simpa [List.getElem?_append_left hlt] using hp
      · simpa [List.getElem?_append_left hlt] using hsent
    · exact ⟨hm, hc, hp, hsent⟩
  | handler j =>
    simp only [step]
    split
    · exact ⟨hm, hc, hp, hsent⟩
    next hj hhj =>
      refine ⟨hm, ?_, ?_, ?_⟩
      · simp [hc0, handlerStep_full]
      · by_cases hji : j = i
        · subst hji
          rw [hhi] at hhj
          cases hhj
          simp only [hhi, Option.map_some', Option.some.injEq] at hp
          simp [List.getElem?_set_self hlt, handlerStep, hp, hc0]
        · simpa [List.getElem?_set_ne hji] using hp
      · by_cases hji : j = i
        · subst hji
          rw [hhi] at hhj
          cases hhj
          simp only [hhi, Option.map_some', Option.some.injEq] at hp hsent
          simp [List.getElem?_set_self hlt, handlerStep, hp, hc0, hsent]
        · simpa [List.getElem?_set_ne hji] using hsent
  | receive =>
    simp only [step]
    split
    · rename_i h1 _; exact absurd h1 hm
    · exact ⟨hm, hc, hp, hsent⟩
  | timeout =>
    have hstep : step api s .timeout = s := by
      unfold step
      cases hmain : s.main with
      | waiting => exact absurd hmain hm
      | _ => simp
    rw [hstep]
    exact ⟨hm, hc, hp, hsent⟩
  | main =>
    simp only [step]
    split
    · exact ⟨by simp, hc, hp, hsent⟩
    · split_ifs
      · exact ⟨by simp, hc, hp, hsent⟩
      · exact ⟨hm, hc, hp, hsent⟩
    · exact ⟨hm, hc, hp, hsent⟩

theorem run_stuck {σ : Type} (api : Api σ) (acts : List Action) (i : Nat) (code : GoString) :
    ∀ s, Stuck s i code → Stuck (run api acts s) i code := by
  induction acts with
  | nil => intro s hs; exact hs
  | cons a as ih => intro s hs; exact ih _ (step_stuck api s a i code hs)

theorem run_append {σ : Type} (api : Api σ) (a b : List Action) (s : Session) :
    run api (a ++ b) s = run api b (run api a s) := by
  simp [run, List.foldl_append]

theorem published_of_stuck (s : Session) (i : Nat) (code : GoString) (hs : Stuck s i code) :
    published s i = [] := by
  obtain ⟨_, _, _, hsent⟩ := hs
  unfold published
  cases hget : s.handlers[i]? with
  | none => rfl
  | some h => simpa [hget] using hsent

theorem threeCallbacks_stuck : Stuck (run okApi threeCallbacks Session.init) 2 (lit "C") := by
  unfold Stuck
  decide

/-- C5 fails as stated: of three concurrent callbacks with the codes `A`, `B`, `C`,
the handler of the third writes the success page, finds the channel full after
`main` has taken its one code, and never puts `C` on the channel, however the
session goes on. -/
theorem third_callback_never_published :
    callbackCode (lit "code=C") = lit "C" ∧
    ((run okApi threeCallbacks Session.init).handlers[2]?).map (fun h => h.response) =
      some (some successResponse) ∧
    ¬ ∃ ext, published (run okApi (threeCallbacks ++ ext) Session.init) 2 ≠ [] := by
  refine ⟨by decide, by rfl, ?_⟩
  rintro ⟨ext, hext⟩
  apply hext
  rw [run_append]
  exact published_of_stuck _ _ _ (run_stuck okApi ext 2 (lit "C") _ threeCallbacks_stuck)

/-- C4 fails as stated for the login flow: a callback whose `code` parameter is the
URL `appie://login-exit?code=XYZ` makes `main` call `ExchangeCode` with that
URL, while `extractCode` of it is `XYZ`. -/
theorem callback_code_not_normalized :
    callbackCode (lit "code=appie%3A%2F%2Flogin-exit%3Fcode%3DXYZ") = lit "appie://login-exit?code=XYZ" ∧
    (run okApi [.request (lit "code=appie%3A%2F%2Flogin-exit%3Fcode%3DXYZ"), .handler 0, .handler 0,
        .receive, .main, .main] Session.init).trace =
      [.shutdown, .exchangeCode (lit "appie://login-exit?code=XYZ"), .saveConfig,
        .stdout successObject] ∧
    extractCode (lit "appie://login-exit?code=XYZ") = lit "XYZ" := by
  decide

/-! ## mustAuth and fatal -/

/-- C10: `mustAuth` returns the client, with no output, when the credentials load
(by `NewWithConfig`, or else by `LoadConfig` on a new client) and the loaded
client is authenticated; it returns a client only then; in every other case it
writes the error object of "Not authenticated. Run: appie-cli login-url" and
exits with status 1; it never requests an anonymous token. -/
theorem mustAuth_authenticated_or_fatal {σ : Type} (api : Api σ) :
    (∀ c, api.NewWithConfig = .ok c → api.IsAuthenticated c = true →
      mustAuth api = ⟨[], some c⟩) ∧
    (∀ e c, api.NewWithConfig = .error e → api.LoadConfig api.New = .ok c →
      api.IsAuthenticated c = true → mustAuth api = ⟨[], some c⟩) ∧
    (∀ c, (mustAuth api).result = some c →
      api.IsAuthenticated c = true ∧
      (api.NewWithConfig = .ok c ∨
        ((∃ e, api.NewWithConfig = .error e) ∧ api.LoadConfig api.New = .ok c))) ∧
    ((mustAuth api).result = none →
      (mustAuth api).trace =
        [.stderr (fatalText (lit "Not authenticated. Run: appie-cli login-url")), .exit 1]) ∧
    Event.getAnonymousToken ∉ (mustAuth api).trace := by
  unfold mustAuth
  cases hN : api.NewWithConfig with
  | ok c0 =>
    cases hA : api.IsAuthenticated c0 <;>
      simp [hA, Bind.bind, Run.bind, Pure.pure, fatal, emit, osExit]
  | error e0 =>
    cases hL : api.LoadConfig api.New with
    | error e1 =>
      simp [Bind.bind, Run.bind, Pure.pure, fatal, emit, osExit]
    | ok c1 =>
      cases hA : api.IsAuthenticated c1 <;>
        simp [hA, Bind.bind, Run.bind, Pure.pure, fatal, emit, osExit]

/-- Witness of C10: with credentials and an authenticated client `mustAuth`
returns; with no credential file it ends through `fatal`. -/
theorem mustAuth_witness :
    mustAuth okApi = ⟨[], some ()⟩ ∧
    (mustAuth noCredentialsApi).result = none ∧
    (mustAuth noCredentialsApi).trace =
      [.stderr (fatalText (lit "Not authenticated. Run: appie-cli login-url")), .exit 1] :=
  ⟨(mustAuth_authenticated_or_fatal okApi).1 () rfl rfl, rfl,
    (mustAuth_authenticated_or_fatal noCredentialsApi).2.2.2.1 rfl⟩

/-- C9, the code at a failing input: for the error text
`Post "https://api.ah.nl": EOF` of a failed exchange, `fatal` writes the quotes
of the message unescaped, and the line is not a JSON object with the key
`error`; for a message without quotes it is one. -/
theorem fatal_quote_breaks_json :
    (fatal (sprintfV (lit "Exchange failed: ") (lit "Post \"https://api.ah.nl\": EOF")) : Run Unit) =
      ⟨[.stderr (lit "\x7b\"error\": \"Exchange failed: Post \"https://api.ah.nl\": EOF\"\x7d\n"),
        .exit 1], none⟩ ∧
    jsonErrorObject
      (lit "\x7b\"error\": \"Exchange failed: Post \"https://api.ah.nl\": EOF\"\x7d\n") = none ∧
    jsonErrorObject (fatalText (lit "Login timed out after 5 minutes")) =
      some (lit "Login timed out after 5 minutes") := by
  refine ⟨?_, by decide, by decide⟩
  have h : fatalText (sprintfV (lit "Exchange failed: ") (lit "Post \"https://api.ah.nl\": EOF")) =
      lit "\x7b\"error\": \"Exchange failed: Post \"https://api.ah.nl\": EOF\"\x7d\n" := by decide
  simp [fatal, Bind.bind, Run.bind, emit, osExit, h]

/-! ## Scenarios -/

/-- Witness of C4 (amended): `exchange-code "appie://login-exit?code=XYZ&state=1"`
passes `XYZ`; the login session of one callback `code=ABC123` passes `ABC123`. -/
theorem exchanged_code_witness :
    (exchangeCodeCmd okApi [lit "appie-cli", lit "exchange-code",
        lit "appie://login-exit?code=XYZ&state=1"]).trace.filter Event.isExchange =
      [.exchangeCode (extractCode (lit "appie://login-exit?code=XYZ&state=1"))] ∧
    extractCode (lit "appie://login-exit?code=XYZ&state=1") = lit "XYZ" ∧
    Event.exchangeCode (lit "ABC123") ∈ (run okApi oneCallback Session.init).trace ∧
    (run okApi oneCallback Session.init).received = [lit "ABC123"] :=
  ⟨(exchanged_code okApi _ _ _ [] []).1, by decide, by decide,
    ((exchanged_code okApi [] [] [] [] oneCallback).2 (lit "ABC123") (by decide)).1⟩

/-- Witness of C5 (amended): a callback without a code is answered 400 and sends
nothing; a callback with `code=ABC123` gets the success page and sends `ABC123`
once. -/
theorem callback_handler_witness :
    (run okApi [.request (lit "state=1"), .handler 0] Session.init).handlers =
      [⟨lit "state=1", .done, some missingCodeResponse, []⟩] ∧
    callbackCode (lit "state=1") = [] ∧
    (run okApi oneCallback Session.init).handlers =
      [⟨lit "code=ABC123", .done, some successResponse, [lit "ABC123"]⟩] ∧
    callbackCode (lit "code=ABC123") = lit "ABC123" ∧
    (some missingCodeResponse = some missingCodeResponse ∧ ([] : List GoString) = [] ∧
      HandlerPc.done = HandlerPc.done) :=
  ⟨by rfl, by decide, by rfl, by decide,
    ((callback_handler okApi [.request (lit "state=1"), .handler 0]).1
      ⟨lit "state=1", .done, some missingCodeResponse, []⟩
      (by
        have h : (run okApi [.request (lit "state=1"), .handler 0] Session.init).handlers =
            [⟨lit "state=1", .done, some missingCodeResponse, []⟩] := by rfl
        rw [h]
        exact List.mem_singleton_self _)
      (by simp)).1 (by decide)⟩

/-! ## mustAnon, and the two strategies of extractCode -/

/-- C11: `mustAnon` returns the client of the persisted credentials, with no
output and no request of an anonymous token, when `NewWithConfig` loads them and
that client is authenticated; in every other case it requests an anonymous
token for a fresh client, once, returns that client when the request succeeds
and ends through `fatal` ("Get anonymous token failed: ...", exit status 1)
when it fails. The anonymous token is requested exactly when there is no loaded,
authenticated client. -/
theorem mustAnon_selection {σ : Type} (api : Api σ) :
    (∀ c, api.NewWithConfig = .ok c → api.IsAuthenticated c = true →
      mustAnon api = ⟨[], some c⟩) ∧
    ((¬ ∃ c, api.NewWithConfig = .ok c ∧ api.IsAuthenticated c = true) →
      (∀ c1, api.GetAnonymousToken api.NewDefault = .ok c1 →
        mustAnon api = ⟨[.getAnonymousToken], some c1⟩) ∧
      (∀ err, api.GetAnonymousToken api.NewDefault = .error err →
        mustAnon api =
          ⟨[.getAnonymousToken,
            .stderr (fatalText (sprintfV (lit "Get anonymous token failed: ") err)),
            .exit 1], none⟩)) ∧
    (Event.getAnonymousToken ∉ (mustAnon api).trace ↔
      ∃ c, api.NewWithConfig = .ok c ∧ api.IsAuthenticated c = true) ∧
    (mustAnon api).trace.count .getAnonymousToken ≤ 1 := by
  unfold mustAnon
  cases hN : api.NewWithConfig with
  | ok c0 =>
    cases hA : api.IsAuthenticated c0
    · cases hT : api.GetAnonymousToken api.NewDefault <;>
        simp [hA, hT, Bind.bind, Run.bind, Pure.pure, fatal, emit, osExit]
    · simp [hA, Bind.bind, Run.bind, Pure.pure, fatal, emit, osExit]
  | error e0 =>
    cases hT : api.GetAnonymousToken api.NewDefault <;>
      simp [hT, Bind.bind, Run.bind, Pure.pure, fatal, emit, osExit]

/-- Witness of C11: with valid credentials the credential-backed client is
returned; with no credentials the anonymous token is requested and the command
goes on (scenario D); when that request fails too, the run ends through `fatal`. -/
theorem mustAnon_selection_witness :
    mustAnon okApi = ⟨[], some ()⟩ ∧
    (¬ ∃ c, noCredentialsApi.NewWithConfig = .ok c ∧ noCredentialsApi.IsAuthenticated c = true) ∧
    mustAnon noCredentialsApi = ⟨[.getAnonymousToken], some ()⟩ ∧
    mustAnon offlineApi =
      ⟨[.getAnonymousToken,
        .stderr (fatalText (sprintfV (lit "Get anonymous token failed: ")
          (lit "dial tcp: no route to host"))),
        .exit 1], none⟩ :=
  ⟨(mustAnon_selection okApi).1 () rfl rfl,
    (by rintro ⟨c, h, _⟩; cases h),
    ((mustAnon_selection noCredentialsApi).2.1 (by rintro ⟨c, h, _⟩; cases h)).1 () rfl,
    ((mustAnon_selection offlineApi).2.1 (by rintro ⟨c, h, _⟩; cases h)).2 _ rfl⟩

/-- What `strings.Index` returns is an occurrence of `sep`, and the first one. -/
theorem Index_some_spec {sep : GoString} : ∀ {s : GoString} {i : Nat}, Index s sep = some i →
    s = s.take i ++ sep ++ s.drop (i + sep.length) ∧
      ∀ a b, s = a ++ sep ++ b → i ≤ a.length := by
  intro s
  induction s with
  | nil =>
    intro i h
    by_cases hs : sep = []
    · simp [Index, hs] at h
      subst h
      simp [hs]
    · simp [Index, hs] at h
  | cons c cs ih =>
    intro i h
    by_cases hp : HasPrefix (c :: cs) sep = true
    · simp only [Index, hp, if_true, Option.some.injEq] at h
      subst h
      have hpre := (HasPrefix_iff _ _).mp hp
      refine ⟨?_, fun _ _ _ => Nat.zero_le _⟩
      simp only [List.take_zero, List.nil_append, Nat.zero_add]
      exact (List.prefix_iff_eq_append.mp hpre).symm
    · simp only [Index, hp] at h
      cases hj : Index cs sep with
      | none => simp [hj] at h
      | some j =>
        simp [hj] at h
        subst h
        obtain ⟨h1, h2⟩ := ih hj
        refine ⟨?_, ?_⟩
        · simp only [List.take_succ_cons, List.cons_append]
          rw [Nat.add_right_comm, List.drop_succ_cons]
          exact congrArg (c :: ·) h1
        · intro a b hab
          rcases a with _ | ⟨a0, a1⟩
          · exfalso
            apply hp
            rw [HasPrefix_iff]
            exact ⟨b, by simpa using hab.symm⟩
          · simp only [List.cons_append, List.cons.injEq] at hab
            have := h2 a1 b hab.2
            simp only [List.length_cons]
            omega

/-- The manual fallback returns the text between the first `code=` and the next
`&` (or the end of the input). -/
theorem extractCodeFallback_spec (t : GoString) (h : Contains t (lit "code=") = true) :
    ∃ pre code post, t = pre ++ lit "code=" ++ code ++ post ∧
      (∀ a b, t = a ++ lit "code=" ++ b → pre.length ≤ a.length) ∧
      0x26 ∉ code ∧ (post = [] ∨ post.head? = some 0x26) ∧
      extractCodeFallback t = code := by
  obtain ⟨i, hi⟩ := Option.isSome_iff_exists.mp h
  obtain ⟨hsplit, hfirst⟩ := Index_some_spec hi
  have hnone : Index (t.drop (i + (lit "code=").length)) (lit "&") = none →
      extractCodeFallback t = t.drop (i + (lit "code=").length) := by
    intro hx
    simp only [extractCodeFallback, SplitN2, hi, hx]
  have hsome : ∀ idx, Index (t.drop (i + (lit "code=").length)) (lit "&") = some idx →
      extractCodeFallback t = (t.drop (i + (lit "code=").length)).take idx := by
    intro idx hx
    simp only [extractCodeFallback, SplitN2, hi, hx]
  have hlen : (t.take i).length = i := by
    have := hfirst _ _ hsplit
    simp only [List.length_take] at this ⊢
    omega
  rw [← hlen] at hfirst
  rcases exists_first_byte (t.drop (i + (lit "code=").length)) 0x26 with hn | ⟨u, v, huv, hu⟩
  · refine ⟨t.take i, t.drop (i + (lit "code=").length), [], ?_, hfirst, hn, Or.inl rfl, ?_⟩
    · rw [List.append_nil]
      exact hsplit
    · exact hnone (by rw [lit_amp]; exact Index_single_eq_none hn)
  · refine ⟨t.take i, u, 0x26 :: v, ?_, hfirst, hu, Or.inr rfl, ?_⟩
    · rw [List.append_assoc (t.take i ++ lit "code="), ← huv]
      exact hsplit
    · rw [hsome u.length (by rw [lit_amp, huv]; exact Index_append_single v hu), huv]
      simp

/-- C12: for every input whose trimmed form `t` contains `code=`: if `url.Parse t`
fails or the `code` query parameter is empty, `extractCode` returns the text of
`t` that starts right after the first occurrence of `code=` and ends just
before the next `&`, or at the end of `t`; if `url.Parse t` succeeds with a
non-empty `code` parameter, `extractCode` returns that value. -/
theorem extractCode_structured_or_fallback (s : GoString)
    (h : Contains (TrimSpace s) (lit "code=") = true) :
    ((Parse (TrimSpace s) = none ∨
        ∃ u, Parse (TrimSpace s) = some u ∧ (URL.Query u).Get (lit "code") = []) →
      ∃ pre code post, TrimSpace s = pre ++ lit "code=" ++ code ++ post ∧
        (∀ a b, TrimSpace s = a ++ lit "code=" ++ b → pre.length ≤ a.length) ∧
        0x26 ∉ code ∧ (post = [] ∨ post.head? = some 0x26) ∧
        extractCode s = code) ∧
    (∀ u, Parse (TrimSpace s) = some u → (URL.Query u).Get (lit "code") ≠ [] →
      extractCode s = (URL.Query u).Get (lit "code")) := by
  constructor
  · intro hp
    have he : extractCode s = extractCodeFallback (TrimSpace s) := by
      rcases hp with hp | ⟨u, hu, hc⟩
      · simp [extractCode, h, hp]
      · simp [extractCode, h, hu, hc]
    rw [he]
    exact extractCodeFallback_spec _ h
  · intro u hu hc
    simp [extractCode, h, hu, hc]

/-- Witness of C12: `code=XYZ&state=1` parses as a path without a query, and
`appie://login-exit:x?code=XYZ` does not parse (bad port); both give `XYZ`. -/
theorem extractCode_structured_or_fallback_witness :
    Contains (TrimSpace (lit "  code=XYZ&state=1 ")) (lit "code=") = true ∧
    (∃ u, Parse (TrimSpace (lit "  code=XYZ&state=1 ")) = some u ∧
      (URL.Query u).Get (lit "code") = []) ∧
    extractCode (lit "  code=XYZ&state=1 ") = lit "XYZ" ∧
    Parse (TrimSpace (lit "appie://login-exit:x?code=XYZ")) = none ∧
    extractCode (lit "appie://login-exit:x?code=XYZ") = lit "XYZ" ∧
    (∃ pre code post, TrimSpace (lit "appie://login-exit:x?code=XYZ") =
        pre ++ lit "code=" ++ code ++ post ∧
      (∀ a b, TrimSpace (lit "appie://login-exit:x?code=XYZ") = a ++ lit "code=" ++ b →
        pre.length ≤ a.length) ∧
      0x26 ∉ code ∧ (post = [] ∨ post.head? = some 0x26) ∧
      extractCode (lit "appie://login-exit:x?code=XYZ") = code) :=
  ⟨by decide, ⟨_, rfl, by decide⟩, by decide, by decide, by decide,
    (extractCode_structured_or_fallback (lit "appie://login-exit:x?code=XYZ") (by decide)).1
      (Or.inl (by decide))⟩

/-! ## The inputs extractCode leaves as they are -/

theorem getSchemeLoop_length (rawURL : GoString) : ∀ (rest : GoString) (i : Nat) (a b : GoString),
    getSchemeLoop rawURL i rest = some (a, b) → b.length ≤ rawURL.length := by
  intro rest
  induction rest with
  | nil =>
    intro i a b h
    simp only [getSchemeLoop, Option.some.injEq, Prod.mk.injEq] at h
    rw [← h.2]
  | cons c cs ih =>
    intro i a b h
    simp only [getSchemeLoop] at h
    split_ifs at h with h1 h2 h3 h4 h5
    · exact ih _ _ _ h
    · simp only [Option.some.injEq, Prod.mk.injEq] at h
      rw [← h.2]
    · exact ih _ _ _ h
    · simp only [Option.some.injEq, Prod.mk.injEq] at h
      rw [← h.2]
      simp
    · simp only [Option.some.injEq, Prod.mk.injEq] at h
      rw [← h.2]

theorem Cut_snd_length (s sep : GoString) : (Cut s sep).2.length ≤ s.length := by
  unfold Cut
  split <;> simp

theorem Cut_fst_length (s sep : GoString) : (Cut s sep).1.length ≤ s.length := by
  unfold Cut
  split <;> simp

theorem setPath_RawQuery {u v : URL} {p : GoString} (h : URL.setPath u p = some v) :
    v.RawQuery = u.RawQuery := by
  simp only [URL.setPath, Option.map_eq_some'] at h
  obtain ⟨_, _, hv⟩ := h
  rw [← hv]

theorem setFragment_RawQuery {u v : URL} {f : GoString} (h : URL.setFragment u f = some v) :
    v.RawQuery = u.RawQuery := by
  simp only [URL.setFragment, Option.map_eq_some'] at h
  obtain ⟨_, _, hv⟩ := h
  rw [← hv]

/-- The raw query of a parsed URL is no longer than the URL. -/
theorem parse_RawQuery_length {s : GoString} {u : URL} (h : parse s = some u) :
    u.RawQuery.length ≤ s.length := by
  unfold parse at h
  split_ifs at h with h1 h2
  · simp only [Option.some.injEq] at h
    rw [← h]
    simp
  · split at h
    · cases h
    · rename_i scheme rest0 hs
      have hr0 : rest0.length ≤ s.length := getSchemeLoop_length s s 0 scheme rest0 hs
      have hq1 : ([] : GoString).length ≤ s.length := Nat.zero_le _
      have hq2 : (Cut rest0 [0x3F]).2.length ≤ s.length :=
        le_trans (Cut_snd_length _ _) hr0
      simp only at h
      split_ifs at h
      all_goals first
        | (simp only [Option.some.injEq] at h
           rw [← h]
           first | exact hq1 | exact hq2)
        | (rw [setPath_RawQuery h]
           first | exact hq1 | exact hq2)
        | (split at h
           · cases h
           · rw [setPath_RawQuery h]
             first | exact hq1 | exact hq2)

theorem Parse_RawQuery_length {s : GoString} {u : URL} (h : Parse s = some u) :
    u.RawQuery.length ≤ s.length := by
  unfold Parse at h
  simp only at h
  split at h
  · cases h
  · rename_i u0 h0
    have := le_trans (parse_RawQuery_length h0) (Cut_fst_length s [0x23])
    split_ifs at h
    · simp only [Option.some.injEq] at h
      rw [← h]
      exact this
    · rw [setFragment_RawQuery h]
      exact this

theorem unescapeDecode_length (mode : Encoding) : ∀ (n : Nat) (s : GoString), s.length ≤ n →
    (unescapeDecode mode s).length ≤ s.length := by
  intro n
  induction n with
  | zero =>
    intro s hs
    have : s = [] := List.length_eq_zero.mp (by omega)
    subst this
    simp [unescapeDecode]
  | succ n ih =>
    intro s hs
    rcases s with _ | ⟨c, rest⟩
    · simp [unescapeDecode]
    · have hrest := ih rest (by simp only [List.length_cons] at hs; omega)
      by_cases hc : c = 0x25
      · rcases rest with _ | ⟨h1, _ | ⟨h2, rest2⟩⟩
        · unfold unescapeDecode
          simp [hc]
        · unfold unescapeDecode
          simp [hc]
        · have := ih rest2 (by simp only [List.length_cons] at hs; omega)
          unfold unescapeDecode
          simp only [hc, if_true, List.length_cons]
          omega
      · unfold unescapeDecode
        simp only [hc, if_false]
        split_ifs <;> simp only [List.length_cons] <;> omega

theorem QueryUnescape_length {v w : GoString} (h : QueryUnescape v = some w) :
    w.length ≤ v.length := by
  simp only [QueryUnescape, unescape] at h
  split_ifs at h
  simp only [Option.some.injEq] at h
  rw [← h]
  exact unescapeDecode_length _ _ _ le_rfl

theorem Cut_single_snd (s : GoString) (b : Nat) :
    (Cut s [b]).2 = [] ∨ (Cut s [b]).2.length < s.length := by
  unfold Cut
  split
  · rcases s with _ | ⟨c, t⟩
    · left; simp
    · right
      simp only [List.length_drop, List.length_cons, List.length_nil]
      omega
  · left; rfl

/-- Every value of a parsed query is empty or shorter than the query. -/
theorem parseQueryLoop_value_length : ∀ (fuel : Nat) (q : GoString) (p : GoString × GoString),
    p ∈ parseQueryLoop fuel q → p.2 = [] ∨ p.2.length < q.length := by
  intro fuel
  induction fuel with
  | zero =>
    intro q p hp
    simp [parseQueryLoop] at hp
  | succ fuel ih =>
    intro q p hp
    have hrec : p ∈ parseQueryLoop fuel (Cut q [0x26]).2 → p.2 = [] ∨ p.2.length < q.length := by
      intro h
      rcases ih _ p h with h1 | h1
      · exact Or.inl h1
      · exact Or.inr (lt_of_lt_of_le h1 (Cut_snd_length _ _))
    simp only [parseQueryLoop] at hp
    split_ifs at hp with h1 h2 h3
    · simp at hp
    · exact hrec hp
    · exact hrec hp
    · split at hp
      · exact hrec hp
      · rename_i key hkey
        split at hp
        · exact hrec hp
        · rename_i value hvalue
          simp only [List.mem_cons] at hp
          rcases hp with hp | hp
          · subst hp
            simp only
            have hl := QueryUnescape_length hvalue
            rcases Cut_single_snd (Cut q [0x26]).1 0x3D with hc | hc
            · left
              rw [hc] at hl
              exact List.length_eq_zero.mp (by simpa using hl)
            · right
              have := Cut_fst_length q [0x26]
              omega
          · exact hrec hp

theorem Get_length (v : Values) (key : GoString) (n : Nat)
    (h : ∀ p ∈ v, p.2 = [] ∨ p.2.length < n) :
    Values.Get v key = [] ∨ (Values.Get v key).length < n := by
  unfold Values.Get
  split
  · rename_i p hp
    exact h p (List.mem_of_find?_eq_some hp)
  · left; rfl

/-- The inputs that `extractCode` returns as they are: those without `code=` and
without white space at their ends. -/
theorem extractCode_fixed_iff (r : GoString) :
    extractCode r = r ↔ Contains r (lit "code=") = false ∧ TrimSpace r = r := by
  constructor
  · intro h
    have hlen : (TrimSpace r).length ≤ r.length := (TrimSpace_slice r).length_le
    by_cases hc : Contains (TrimSpace r) (lit "code=") = true
    · exfalso
      have hlt : (extractCode r).length < (TrimSpace r).length := by
        have hfb : (extractCodeFallback (TrimSpace r)).length < (TrimSpace r).length := by
          obtain ⟨pre, code, post, h1, _, _, _, h5⟩ := extractCodeFallback_spec _ hc
          rw [h5]
          have := congrArg List.length h1
          simp only [List.length_append, lit_code_eq, List.length_cons, List.length_nil] at this
          omega
        unfold extractCode
        simp only [hc, if_true]
        split
        · rename_i u hu
          split_ifs with hne
          · rcases Get_length (URL.Query u) (lit "code") u.RawQuery.length
              (parseQueryLoop_value_length _ _) with h0 | h0
            · exact absurd h0 hne
            · exact lt_of_lt_of_le h0 (Parse_RawQuery_length hu)
          · exact hfb
        · exact hfb
      rw [h] at hlt
      omega
    · have hc' : Contains (TrimSpace r) (lit "code=") = false := by simpa using hc
      have he : extractCode r = TrimSpace r := by simp [extractCode, hc']
      have ht : TrimSpace r = r := by rw [← he]; exact h
      exact ⟨by rw [ht] at hc'; exact hc', ht⟩
  · rintro ⟨hc, ht⟩
    simp [extractCode, ht, hc]

/-! ## How many codes go on the channel -/

theorem sum_map_set {α : Type} (f : α → Nat) (l : List α) (i : Nat) (a b : α)
    (hi : l[i]? = some a) : ((l.set i b).map f).sum + f a = (l.map f).sum + f b := by
  induction l generalizing i with
  | nil => simp at hi
  | cons x xs ih =>
    cases i with
    | zero =>
      simp only [List.getElem?_cons_zero, Option.some.injEq] at hi
      subst hi
      simp only [List.set_cons_zero, List.map_cons, List.sum_cons]
      omega
    | succ i =>
      simp only [List.getElem?_cons_succ] at hi
      have := ih i hi
      simp only [List.set_cons_succ, List.map_cons, List.sum_cons]
      omega

theorem handlerStep_sent (ch : Option GoString) (h : Handler) :
    (handlerStep ch h).2.sent.length + ch.toList.length =
      h.sent.length + (handlerStep ch h).1.toList.length := by
  unfold handlerStep
  split
  · dsimp only
    split_ifs <;> rfl
  · split
    · simp
    · rfl
  · rfl

/-- The codes put on the channel are those `main` has received and the one in
the buffer. -/
theorem step_sent {σ : Type} (api : Api σ) (s : Session) (a : Action)
    (hs : sentTotal s = s.received.length + s.codeCh.toList.length) :
    sentTotal (step api s a) =
      (step api s a).received.length + (step api s a).codeCh.toList.length := by
  cases a with
  | request q =>
    simp only [step]
    split_ifs
    · simpa [sentTotal] using hs
    · exact hs
  | handler i =>
    simp only [step]
    split
    · exact hs
    next h hi =>
      have h1 := sum_map_set (fun h : Handler => h.sent.length) s.handlers i h
        (handlerStep s.codeCh h).2 hi
      have h2 := handlerStep_sent s.codeCh h
      beta_reduce at h1
      simp only [sentTotal] at hs ⊢
      omega
  | receive =>
    simp only [step]
    split
    next c hm hc =>
      simp only [sentTotal] at hs ⊢
      simp only [hc, Option.toList_some, List.length_singleton] at hs
      simp only [List.length_append, List.length_singleton, Option.toList_none, List.length_nil]
      omega
    · exact hs
  | timeout =>
    cases hmain : s.main <;> simpa [step, hmain, sentTotal] using hs
  | main =>
    cases hmain : s.main with
    | inShutdown sel =>
      simp only [step, hmain]
      split_ifs
      · simpa [sentTotal] using hs
      · simpa [sentTotal] using hs
    | _ => simpa [step, hmain, sentTotal] using hs

theorem run_sent {σ : Type} (api : Api σ) (acts : List Action) :
    ∀ s, sentTotal s = s.received.length + s.codeCh.toList.length →
      sentTotal (run api acts s) =
        (run api acts s).received.length + (run api acts s).codeCh.toList.length := by
  induction acts with
  | nil => intro s hs; exact hs
  | cons a as ih => intro s hs; exact ih _ (step_sent api s a hs)

theorem countP_le_sum (l : List Handler) (hl : ∀ h ∈ l, HandlerOk h) :
    l.countP (fun h => decide (h.pc = .done) && decide (callbackCode h.rawQuery ≠ [])) ≤
      (l.map fun h => h.sent.length).sum := by
  induction l with
  | nil => simp
  | cons x xs ih =>
    have hx := hl x (by simp)
    have := ih (fun h hh => hl h (by simp [hh]))
    simp only [List.countP_cons, List.map_cons, List.sum_cons]
    by_cases hc : (decide (x.pc = .done) && decide (callbackCode x.rawQuery ≠ [])) = true
    · simp only [hc, if_true]
      simp only [Bool.and_eq_true, decide_eq_true_eq] at hc
      have hlen : x.sent.length = 1 := by
        unfold HandlerOk at hx
        rw [hc.1] at hx
        rcases hx with hx | hx
        · exact absurd hx.1 hc.2
        · rw [hx.2.2]
          rfl
      omega
    · simp only [hc]
      simp only [Bool.false_eq_true, if_false]
      omega

theorem answered_le {σ : Type} (api : Api σ) (acts : List Action) :
    answeredWithCode (run api acts Session.init) ≤
      (run api acts Session.init).received.length + 1 := by
  have h1 := countP_le_sum _ (run_init_ok api acts).1
  have h2 := run_sent api acts Session.init (by simp [sentTotal, Session.init])
  have h3 : (run api acts Session.init).codeCh.toList.length ≤ 1 := by
    cases (run api acts Session.init).codeCh <;> simp
  simp only [answeredWithCode, sentTotal] at h2 ⊢
  omega

/-! ## A session whose Shutdown does not return -/

theorem step_not_finished {σ : Type} (api : Api σ) (s : Session) (a : Action) (i : Nat)
    (code : GoString) (hs : Stuck s i code) (hn : ∀ sel, s.main ≠ .finished sel) :
    ∀ sel, (step api s a).main ≠ .finished sel := by
  obtain ⟨_, _, hp, _⟩ := hs
  have hall : (s.handlers.all fun h => decide (h.pc = .done)) = false := by
    cases hget : s.handlers[i]? with
    | none => simp [hget] at hp
    | some h =>
      simp only [hget, Option.map_some', Option.some.injEq] at hp
      rw [Bool.eq_false_iff]
      intro hall
      have := List.all_eq_true.mp hall h (List.getElem?_mem hget)
      simp [hp] at this
  intro sel
  have hsel := hn sel
  cases a with
  | request q =>
    simp only [step]
    split_ifs
    · exact hn sel
    · exact hn sel
  | handler j =>
    simp only [step]
    split
    · exact hn sel
    · exact hn sel
  | receive =>
    simp only [step]
    split
    · simp
    · exact hn sel
  | timeout =>
    cases hmain : s.main <;> simp_all [step]
  | main =>
    cases hmain : s.main with
    | inShutdown sel1 =>
      have hstep : step api s .main = s := by
        simp only [step, hmain, hall, Bool.false_eq_true, if_false]
      rw [hstep]
      exact hn sel
    | _ => simp_all [step]

theorem run_not_finished {σ : Type} (api : Api σ) (acts : List Action) (i : Nat)
    (code : GoString) : ∀ s, Stuck s i code → (∀ sel, s.main ≠ .finished sel) →
      ∀ sel, (run api acts s).main ≠ .finished sel := by
  induction acts with
  | nil => intro s _ hn; exact hn
  | cons a as ih =>
    intro s hs hn
    exact ih _ (step_stuck api s a i code hs) (step_not_finished api s a i code hs hn)

/-- Before `srv.Shutdown` has returned the only event of `main` is the call of it. -/
theorem trace_of_not_finished {σ : Type} (api : Api σ) (s : Session) (hM : MainOk api s)
    (hn : ∀ sel, s.main ≠ .finished sel) : ∀ e ∈ s.trace, e = .shutdown := by
  unfold MainOk at hM
  split at hM
  · simp [hM.1]
  · simp [hM.1]
  · simp [hM.1]
  · rename_i sel hm
    exact absurd hm (hn sel)

theorem stuck_trace {σ : Type} (api : Api σ) (pre ext : List Action) (i : Nat) (code : GoString)
    (hs : Stuck (run api pre Session.init) i code)
    (hn : ∀ sel, (run api pre Session.init).main ≠ .finished sel) :
    ∀ e ∈ (run api (pre ++ ext) Session.init).trace, e = .shutdown := by
  apply trace_of_not_finished api _ (run_init_ok api (pre ++ ext)).2.2.2
  rw [run_append]
  exact run_not_finished api ext i code _ hs hn

theorem answer_of_stuck (s : Session) (i : Nat) (code : GoString) (hs : Stuck s i code) :
    answer s i = none := by
  obtain ⟨_, _, hp, _⟩ := hs
  unfold answer
  cases hget : s.handlers[i]? with
  | none => rfl
  | some h =>
    simp only [hget, Option.map_some', Option.some.injEq] at hp
    simp [delivered, hp]

theorem timeoutWithTwoInFlight_stuck :
    Stuck (run okApi timeoutWithTwoInFlight Session.init) 1 (lit "B") := by
  unfold Stuck
  decide

/-- C6 fails as stated: in the session of three concurrent callbacks the third
request carries the code `C`, and whatever happens afterwards its handler does
not return, so the request never receives the success page (nor any other
response). -/
theorem third_callback_never_answered :
    callbackCode (lit "code=C") = lit "C" ∧
    ((run okApi threeCallbacks Session.init).handlers[2]?).map (fun h => h.rawQuery) =
      some (lit "code=C") ∧
    ¬ ∃ ext, answer (run okApi (threeCallbacks ++ ext) Session.init) 2 ≠ none := by
  refine ⟨by decide, by decide, ?_⟩
  rintro ⟨ext, hext⟩
  apply hext
  rw [run_append]
  exact answer_of_stuck _ _ _ (run_stuck okApi ext 2 (lit "C") _ threeCallbacks_stuck)

/-- C7 fails as stated for the login command: in the session of three concurrent
callbacks `main` has captured the code `A`, whose exchange and save would
succeed, and whatever happens afterwards `ExchangeCode` is never called:
`srv.Shutdown` waits for the handler of the third request, which is blocked in
its send. -/
theorem captured_code_never_exchanged :
    (run okApi threeCallbacks Session.init).received = [lit "A"] ∧
    exchangeSucceeds okApi okApi.New (lit "A") ∧
    ¬ ∃ ext, ∃ c, Event.exchangeCode c ∈ (run okApi (threeCallbacks ++ ext) Session.init).trace := by
  refine ⟨by decide, ⟨(), rfl, rfl⟩, ?_⟩
  rintro ⟨ext, c, hc⟩
  have hm : (run okApi threeCallbacks Session.init).main = .selected (some (lit "A")) := by
    decide
  have := stuck_trace okApi threeCallbacks ext 2 (lit "C") threeCallbacks_stuck
    (by intro sel; rw [hm]; simp) _ hc
  cases this

/-- C8 fails as stated: the timer fires while two callbacks are in flight, with no
code on the channel and none received; whatever happens afterwards the only
event of `main` is the call of `srv.Shutdown`, which waits for the second
handler: the time-out error is never written and the process does not exit. -/
theorem timeout_never_reported :
    (run okApi (timeoutWithTwoInFlight.take 5) Session.init).main = .selected none ∧
    (run okApi (timeoutWithTwoInFlight.take 5) Session.init).codeCh = none ∧
    (run okApi (timeoutWithTwoInFlight.take 5) Session.init).received = [] ∧
    ¬ ∃ ext, ∃ e ∈ (run okApi (timeoutWithTwoInFlight ++ ext) Session.init).trace,
      e ≠ Event.shutdown := by
  refine ⟨by decide, by decide, by decide, ?_⟩
  rintro ⟨ext, e, he, hne⟩
  have hm : (run okApi timeoutWithTwoInFlight Session.init).main = .inShutdown none := by
    decide
  exact hne (stuck_trace okApi timeoutWithTwoInFlight ext 1 (lit "B")
    timeoutWithTwoInFlight_stuck (by intro sel; rw [hm]; simp) e he)


/-! ## Idempotence of extractCode -/

/-- A second input on which `extractCode` is not idempotent: the query value
`a+` is decoded to `a` and a space, which the second call trims. -/
theorem extractCode_decoded_space :
    extractCode (lit "x?code=a+") = lit "a " ∧
    extractCode (extractCode (lit "x?code=a+")) = lit "a" := by
  decide

/-- C3 (amended): for every input `s`, `extractCode (extractCode s) = extractCode s`
if and only if the extracted value `extractCode s` does not contain `code=` and
has no white space at its ends. In particular this holds for every input that
does not contain `code=` (a bare code). -/
theorem extractCode_idempotent_iff (s : GoString) :
    (extractCode (extractCode s) = extractCode s ↔
      Contains (extractCode s) (lit "code=") = false ∧
        TrimSpace (extractCode s) = extractCode s) ∧
    (Contains s (lit "code=") = false → extractCode (extractCode s) = extractCode s) := by
  refine ⟨extractCode_fixed_iff _, fun h => ?_⟩
  have he : extractCode s = TrimSpace s := by
    simp [extractCode, Contains_TrimSpace h]
  rw [he]
  exact (extractCode_fixed_iff _).mpr ⟨Contains_TrimSpace h, TrimSpace_idem s⟩

/-- Witness of C3 (amended) at the URL `appie://login-exit?code=XYZ&state=1` and
at the bare code `" ABC123 "`. -/
theorem extractCode_idempotent_iff_witness :
    extractCode (lit "appie://login-exit?code=XYZ&state=1") = lit "XYZ" ∧
    extractCode (extractCode (lit "appie://login-exit?code=XYZ&state=1")) =
      extractCode (lit "appie://login-exit?code=XYZ&state=1") ∧
    extractCode (extractCode (lit " ABC123 ")) = extractCode (lit " ABC123 ") :=
  ⟨by decide,
    (extractCode_idempotent_iff (lit "appie://login-exit?code=XYZ&state=1")).1.mpr
      ⟨by decide, by decide⟩,
    (extractCode_idempotent_iff (lit " ABC123 ")).2 (by decide)⟩

/-! ## The login session: what every schedule guarantees -/

theorem answer_of_get (s : Session) (i : Nat) (h : Handler) (hi : s.handlers[i]? = some h) :
    answer s i = delivered h := by
  simp [answer, hi]

/-- A handler that waits to send while the slot of `codeCh` is free puts its code
on the channel and returns. -/
theorem handler_returns {σ : Type} (api : Api σ) (s : Session) (i : Nat) (h : Handler)
    (code : GoString) (hi : s.handlers[i]? = some h) (hp : h.pc = .sending code)
    (hch : s.codeCh = none) :
    (step api s (.handler i)).codeCh = some code ∧
    answer (step api s (.handler i)) i = h.response := by
  have hlt : i < s.handlers.length := by
    rcases List.getElem?_eq_some.mp hi with ⟨hlt, _⟩
    exact hlt
  have hstep : handlerStep none h =
      (some code, { h with pc := .done, sent := h.sent ++ [code] }) := by
    simp [handlerStep, hp]
  simp only [step, hi, hch, hstep]
  simp [answer, delivered, hlt]

/-- When every handler has returned, `srv.Shutdown` returns and `main` runs the
rest of its arm: two steps of `main` after the `select` end the session. -/
theorem main_finishes {σ : Type} (api : Api σ) (s : Session) (sel : Option GoString)
    (hM : MainOk api s)
    (hm : s.main = .selected sel ∨ s.main = .inShutdown sel ∨ s.main = .finished sel)
    (hall : (s.handlers.all fun h => decide (h.pc = .done)) = true) :
    (run api [.main, .main] s).main = .finished sel ∧
    (run api [.main, .main] s).trace = .shutdown :: (afterShutdown api api.New sel).trace := by
  unfold MainOk at hM
  rcases hm with hm | hm | hm
  · rw [hm] at hM
    simp [run, step, hm, hall, hM.1]
  · rw [hm] at hM
    simp [run, step, hm, hall, hM.1]
  · rw [hm] at hM
    simp [run, step, hm, hM.1]

/-- The first step of `main` after the `select` is the call of `srv.Shutdown`. -/
theorem main_calls_shutdown {σ : Type} (api : Api σ) (s : Session) (sel : Option GoString)
    (hM : MainOk api s) (hm : s.main = .selected sel) :
    s.trace = [] ∧ (step api s .main).main = .inShutdown sel ∧
    (step api s .main).trace = [.shutdown] := by
  unfold MainOk at hM
  rw [hm] at hM
  simp [step, hm, hM.1]

/-- The call `srv.Shutdown(ctx)` returns when every handler has returned, and
waits while one has not. -/
theorem shutdown_returns {σ : Type} (api : Api σ) (s : Session) (sel : Option GoString)
    (hM : MainOk api s) (hm : s.main = .inShutdown sel) :
    ((s.handlers.all fun h => decide (h.pc = .done)) = true →
      (step api s .main).main = .finished sel ∧
      (step api s .main).trace = .shutdown :: (afterShutdown api api.New sel).trace) ∧
    ((s.handlers.all fun h => decide (h.pc = .done)) = false → step api s .main = s) := by
  unfold MainOk at hM
  rw [hm] at hM
  constructor
  · intro hall
    simp [step, hm, hall, hM.1]
  · intro hall
    simp only [step, hm, hall, Bool.false_eq_true, if_false]

/-- The position of `main` once it has received the code `c`. -/
theorem main_of_received {σ : Type} (api : Api σ) (s : Session) (c : GoString)
    (hM : MainOk api s) (hr : s.received = [c]) :
    s.main = .selected (some c) ∨ s.main = .inShutdown (some c) ∨ s.main = .finished (some c) := by
  unfold MainOk at hM
  split at hM
  · rw [hM.2.1] at hr
    cases hr
  · rename_i sel hm
    rw [hM.2.1] at hr
    cases sel <;> simp at hr
    rw [hr] at hm
    exact Or.inl hm
  · rename_i sel hm
    rw [hM.2.1] at hr
    cases sel <;> simp at hr
    rw [hr] at hm
    exact Or.inr (Or.inl hm)
  · rename_i sel hm
    rw [hM.2.1] at hr
    cases sel <;> simp at hr
    rw [hr] at hm
    exact Or.inr (Or.inr hm)

/-- C6 (amended): after every schedule of a login session (any number and order
of `/callback` requests and of steps of their handlers and of `main`), `main`
has received at most one code and has called `ExchangeCode` at most once. A
request with a non-empty code has received the success page (status 200) if
its handler has put its code on the channel and returned, and nothing
otherwise; at most one more request than `main` has received codes, so at most
two, have received it. A handler that waits to send while the slot is free
returns at its next step, and its request then has the success page; a handler
that waits while the slot is full and `main` is past its receive never
returns, and its request receives nothing. -/
theorem one_code_one_exchange {σ : Type} (api : Api σ) (acts : List Action) :
    (run api acts Session.init).received.length ≤ 1 ∧
    ((run api acts Session.init).trace.filter Event.isExchange).length ≤ 1 ∧
    (∀ i h, (run api acts Session.init).handlers[i]? = some h → callbackCode h.rawQuery ≠ [] →
      (h.pc = .done → answer (run api acts Session.init) i = some successResponse ∧
        h.sent = [callbackCode h.rawQuery]) ∧
      (h.pc ≠ .done → answer (run api acts Session.init) i = none ∧ h.sent = [])) ∧
    answeredWithCode (run api acts Session.init) ≤
      (run api acts Session.init).received.length + 1 ∧
    answeredWithCode (run api acts Session.init) ≤ 2 ∧
    (∀ i h code, (run api acts Session.init).handlers[i]? = some h → h.pc = .sending code →
      (run api acts Session.init).codeCh = none →
      answer (run api (acts ++ [.handler i]) Session.init) i = some successResponse ∧
      (run api (acts ++ [.handler i]) Session.init).codeCh = some (callbackCode h.rawQuery)) ∧
    (∀ i code, Stuck (run api acts Session.init) i code →
      ∀ ext, answer (run api (acts ++ ext) Session.init) i = none) := by
  obtain ⟨hH, _, _, hM⟩ := run_init_ok api acts
  obtain ⟨h1, h2, _, _⟩ := session_trace api _ hM
  have h4 := answered_le api acts
  refine ⟨h1, h2, ?_, h4, by omega, ?_, ?_⟩
  · intro i h hi hcode
    have hok := hH h (List.getElem?_mem hi)
    rw [answer_of_get _ _ _ hi]
    unfold HandlerOk at hok
    cases hp : h.pc with
    | started =>
      rw [hp] at hok
      simp [delivered, hp, hok.2]
    | sending code =>
      rw [hp] at hok
      simp [delivered, hp, hok.2.2.2]
    | done =>
      rw [hp] at hok
      rcases hok with hok | hok
      · exact absurd hok.1 hcode
      · simp [delivered, hp, hok.2.1, hok.2.2]
  · intro i h code hi hp hch
    have hok := hH h (List.getElem?_mem hi)
    unfold HandlerOk at hok
    rw [hp] at hok
    obtain ⟨hc1, hc2⟩ := handler_returns api _ i h code hi hp hch
    rw [run_append]
    change answer (step api _ (.handler i)) i = _ ∧ (step api _ (.handler i)).codeCh = _
    rw [hc1, hc2, hok.2.2.1, hok.1]
    exact ⟨rfl, rfl⟩
  · intro i code hs ext
    rw [run_append]
    exact answer_of_stuck _ _ _ (run_stuck api ext i code _ hs)

/-- Witness of C6 (amended): with a duplicated callback `code=ABC123` both
requests receive the success page and `ExchangeCode` is called once. -/
theorem one_code_one_exchange_witness :
    answer (run okApi duplicateCallbacks Session.init) 0 = some successResponse ∧
    answer (run okApi duplicateCallbacks Session.init) 1 = some successResponse ∧
    (run okApi duplicateCallbacks Session.init).trace.filter Event.isExchange =
      [.exchangeCode (lit "ABC123")] ∧
    (run okApi duplicateCallbacks Session.init).received.length ≤ 1 ∧
    answeredWithCode (run okApi duplicateCallbacks Session.init) ≤ 2 :=
  ⟨by rfl, by rfl, by decide, (one_code_one_exchange okApi duplicateCallbacks).1,
    (one_code_one_exchange okApi duplicateCallbacks).2.2.2.2.1⟩

/-- C7 (amended): the exchange-code command with argument `a` calls `ExchangeCode`
exactly once, with `extractCode a`; the success object is on standard output
if and only if the exchange and the save after it succeed; otherwise the run
ends through `fatal` (error object on standard error, exit status 1, no
return). In a login session, after every schedule: `ExchangeCode` has been
called with `c` only if `main` received `c` and `srv.Shutdown` has returned;
when `main` is past `srv.Shutdown` with the code `c`, `ExchangeCode` has been
called exactly once, with `c`, the success object is printed if and only if the
exchange of `c` and the save succeed, and otherwise the trace ends with the
error object and exit status 1; the success object is printed in no other
state. Once `main` has received `c` and every accepted handler has returned,
two further steps of `main` bring it past `srv.Shutdown`, to the exchange of
`c`. -/
theorem success_iff_exchange_and_save {σ : Type} (api : Api σ) (prog cmd a : GoString)
    (more : List GoString) (acts : List Action) :
    ((exchangeCodeCmd api (prog :: cmd :: a :: more)).trace.filter Event.isExchange =
        [.exchangeCode (extractCode a)] ∧
      (.stdout successObject ∈ (exchangeCodeCmd api (prog :: cmd :: a :: more)).trace ↔
        exchangeSucceeds api api.New (extractCode a)) ∧
      (¬ exchangeSucceeds api api.New (extractCode a) →
        endsFatal (exchangeCodeCmd api (prog :: cmd :: a :: more)))) ∧
    (∀ c, Event.exchangeCode c ∈ (run api acts Session.init).trace →
      (run api acts Session.init).main = .finished (some c) ∧
      (run api acts Session.init).received = [c]) ∧
    (∀ c, (run api acts Session.init).main = .finished (some c) →
      (run api acts Session.init).trace = .shutdown :: (exchangeAndSave api api.New c).trace ∧
      (run api acts Session.init).trace.filter Event.isExchange = [.exchangeCode c] ∧
      (.stdout successObject ∈ (run api acts Session.init).trace ↔
        exchangeSucceeds api api.New c) ∧
      (¬ exchangeSucceeds api api.New c →
        ∃ pre msg, (run api acts Session.init).trace = pre ++ [.stderr (fatalText msg), .exit 1])) ∧
    (Event.stdout successObject ∈ (run api acts Session.init).trace ↔
      ∃ c, (run api acts Session.init).main = .finished (some c) ∧
        exchangeSucceeds api api.New c) ∧
    (∀ c, (run api acts Session.init).received = [c] →
      ((run api acts Session.init).handlers.all fun h => decide (h.pc = .done)) = true →
      (run api (acts ++ [.main, .main]) Session.init).main = .finished (some c) ∧
      (run api (acts ++ [.main, .main]) Session.init).trace =
        .shutdown :: (exchangeAndSave api api.New c).trace) := by
  obtain ⟨_, _, _, hM⟩ := run_init_ok api acts
  have hfin : ∀ c, (run api acts Session.init).main = .finished (some c) →
      (run api acts Session.init).trace = .shutdown :: (exchangeAndSave api api.New c).trace := by
    intro c hm
    unfold MainOk at hM
    rw [hm] at hM
    exact hM.1
  refine ⟨?_, ?_, ?_, ?_, ?_⟩
  · rw [exchangeCodeCmd_eq]
    obtain ⟨h1, h2, h3, _⟩ := exchangeAndSave_outcome api api.New (extractCode a)
    exact ⟨h1, h2, h3⟩
  · intro c hc
    have hr := (session_trace api _ hM).2.2.2 c hc
    refine ⟨?_, hr⟩
    rcases main_of_received api _ c hM hr with hm | hm | hm
    · unfold MainOk at hM
      rw [hm] at hM
      rw [hM.1] at hc
      cases hc
    · unfold MainOk at hM
      rw [hm] at hM
      rw [hM.1] at hc
      simp at hc
    · exact hm
  · intro c hm
    have ht := hfin c hm
    obtain ⟨h1, h2, h3, _⟩ := exchangeAndSave_outcome api api.New c
    refine ⟨ht, ?_, ?_, ?_⟩
    · rw [ht, List.filter_cons_of_neg (by simp [Event.isExchange]), h1]
    · rw [ht]
      simpa using h2
    · intro hn
      obtain ⟨_, pre, msg, hp⟩ := h3 hn
      exact ⟨.shutdown :: pre, msg, by rw [ht, hp]; rfl⟩
  · have hM2 := hM
    unfold MainOk at hM
    split at hM
    · rename_i hm
      simp [hM.1, hm]
    · rename_i sel hm
      simp [hM.1, hm]
    · rename_i sel hm
      simp [hM.1, hm]
    · rename_i sel hm
      rw [hM.1, hm]
      cases sel with
      | none => simp [afterShutdown_timeout]
      | some c0 =>
        obtain ⟨_, h2, _, _⟩ := exchangeAndSave_outcome api api.New c0
        simp [afterShutdown, h2]
  · intro c hr hall
    rw [run_append]
    have := main_finishes api _ (some c) hM (main_of_received api _ c hM hr) hall
    simpa [afterShutdown] using this

/-- Witness of C7 (amended), scenario A: after the callback `code=ABC123` has been
answered and its code received, `main` goes through `srv.Shutdown`, calls
`ExchangeCode` with `ABC123`, saves, and prints the success object. -/
theorem success_iff_exchange_and_save_witness :
    oneCallback = oneCallback.take 4 ++ [.main, .main] ∧
    (run okApi (oneCallback.take 4) Session.init).received = [lit "ABC123"] ∧
    (run okApi oneCallback Session.init).main = .finished (some (lit "ABC123")) ∧
    (run okApi oneCallback Session.init).trace =
      [.shutdown, .exchangeCode (lit "ABC123"), .saveConfig, .stdout successObject] ∧
    exchangeSucceeds okApi okApi.New (lit "ABC123") :=
  ⟨by decide, by decide,
    ((success_iff_exchange_and_save okApi [] [] [] [] (oneCallback.take 4)).2.2.2.2
      (lit "ABC123") (by decide) (by decide)).1,
    by decide, ⟨(), rfl, rfl⟩⟩

/-- C8 (amended): after every schedule of a login session `srv.Shutdown` has been
called at most once, and only after the `select` has chosen (a code, if any,
being received already); the first step of `main` after the `select` is that
call. On the time-out path (the timer chosen) no code is received and there is
no call of `ExchangeCode` or `SaveConfig` and no success object, in any state;
when `srv.Shutdown` has returned, the trace is exactly: shutdown, the error
object "Login timed out after 5 minutes" on standard error, exit status 1.
`srv.Shutdown` returns at the next step of `main` when every accepted handler
has returned, and does not return while one has not. On the path of a received
code `c`, when `srv.Shutdown` has returned, the trace is the one call of
`srv.Shutdown`, then `ExchangeCode c`, then the rest, with no other shutdown. -/
theorem shutdown_once {σ : Type} (api : Api σ) (acts : List Action) :
    (run api acts Session.init).trace.count .shutdown ≤ 1 ∧
    (Event.shutdown ∈ (run api acts Session.init).trace →
      ∃ sel, ((run api acts Session.init).main = .inShutdown sel ∨
          (run api acts Session.init).main = .finished sel) ∧
        (run api acts Session.init).received = sel.toList) ∧
    (∀ sel, (run api acts Session.init).main = .selected sel →
      (run api acts Session.init).trace = [] ∧
      (run api (acts ++ [.main]) Session.init).main = .inShutdown sel ∧
      (run api (acts ++ [.main]) Session.init).trace = [.shutdown]) ∧
    (((run api acts Session.init).main = .selected none ∨
        (run api acts Session.init).main = .inShutdown none ∨
        (run api acts Session.init).main = .finished none) →
      (run api acts Session.init).received = [] ∧
      (∀ c, Event.exchangeCode c ∉ (run api acts Session.init).trace) ∧
      Event.saveConfig ∉ (run api acts Session.init).trace ∧
      Event.stdout successObject ∉ (run api acts Session.init).trace) ∧
    ((run api acts Session.init).main = .finished none →
      (run api acts Session.init).trace =
        [.shutdown, .stderr (fatalText (lit "Login timed out after 5 minutes")), .exit 1]) ∧
    (∀ sel, (run api acts Session.init).main = .inShutdown sel →
      (((run api acts Session.init).handlers.all fun h => decide (h.pc = .done)) = true →
        (run api (acts ++ [.main]) Session.init).main = .finished sel ∧
        (run api (acts ++ [.main]) Session.init).trace =
          .shutdown :: (afterShutdown api api.New sel).trace) ∧
      (((run api acts Session.init).handlers.all fun h => decide (h.pc = .done)) = false →
        run api (acts ++ [.main]) Session.init = run api acts Session.init)) ∧
    (∀ c, (run api acts Session.init).main = .finished (some c) →
      (run api acts Session.init).received = [c] ∧
      ∃ rest, (run api acts Session.init).trace = .shutdown :: .exchangeCode c :: rest ∧
        .shutdown ∉ rest) := by
  obtain ⟨_, _, _, hM⟩ := run_init_ok api acts
  have hM0 := hM
  unfold MainOk at hM
  refine ⟨(session_trace api _ hM0).2.2.1, ?_, ?_, ?_, ?_, ?_, ?_⟩
  · intro hsh
    split at hM
    · rw [hM.1] at hsh
      cases hsh
    · rw [hM.1] at hsh
      cases hsh
    · rename_i sel hm
      exact ⟨sel, Or.inl hm, hM.2.1⟩
    · rename_i sel hm
      exact ⟨sel, Or.inr hm, hM.2.1⟩
  · intro sel hm
    rw [run_append]
    exact main_calls_shutdown api _ sel hM0 hm
  · intro hm
    rcases hm with hm | hm | hm
    · rw [hm] at hM
      simp [hM.1, hM.2.1]
    · rw [hm] at hM
      simp [hM.1, hM.2.1]
    · rw [hm] at hM
      simp [hM.1, hM.2.1, afterShutdown_timeout]
  · intro hm
    rw [hm] at hM
    rw [hM.1, afterShutdown_timeout]
  · intro sel hm
    rw [run_append]
    exact shutdown_returns api _ sel hM0 hm
  · intro c hm
    rw [hm] at hM
    obtain ⟨_, _, _, rest, h4, h5⟩ := exchangeAndSave_outcome api api.New c
    refine ⟨by simpa using hM.2.1, rest, ?_, h5⟩
    rw [hM.1]
    simp [afterShutdown, h4]

/-- Witness of C8 (amended): the session in which the timer fires with no
callback. -/
theorem shutdown_once_witness :
    (run okApi [.timeout, .main, .main] Session.init).main = .finished none ∧
    (run okApi [.timeout, .main, .main] Session.init).received = [] ∧
    (run okApi [.timeout, .main, .main] Session.init).trace =
      [.shutdown, .stderr (fatalText (lit "Login timed out after 5 minutes")), .exit 1] :=
  ⟨by decide,
    ((shutdown_once okApi [.timeout, .main, .main]).2.2.2.1 (Or.inr (Or.inr (by decide)))).1,
    (shutdown_once okApi [.timeout, .main, .main]).2.2.2.2.1 (by decide)⟩

end AppieCli
